import Mathlib

/-!
# Multiscale feature persistence (`pcl::MultiscaleFeaturePersistence`)

A shallow embedding of
`features/include/pcl/features/impl/multiscale_feature_persistence.hpp`.

* `float` is an abstract number type `F` carrying exactly the operations the
  code applies to it (`+ - * /`, unary minus, comparison, conversion from
  `size_t`).  The structural results hold for every such `F`; the arithmetic
  results are stated for a linearly ordered field, i.e. for exact arithmetic
  without rounding.
* `fabs`, `sqrt` and `log` come from the C library and are parameters
  (`LibM`).
* `std::vector` and `std::list` are `List`; a `boost::shared_ptr` to a cloud is
  the cloud itself.
* The feature estimator and the point representation are collaborators whose
  code lives elsewhere; they are parameters (`FeatureEstimator`,
  `PointRepresentation`).
* `operator[]` is unchecked in C++.  The reads of the persistence loop are
  modelled with `Option`: `none` stands for an out-of-range read, after which
  the C++ program has no defined result.
-/

set_option linter.unusedSectionVars false

namespace pcl

/-- The metric selector `distance_metric_`. -/
inductive DistanceMetric where
  | MANHATTAN
  | EUCLIDEAN
  | JEFFRIES_MATUSITA
  | BHATTACHARYYA
  | CHI_SQUARE
  | KL_DIVERGENCE
  deriving DecidableEq, Repr

/-- The C library functions used by `distanceBetweenFeatures` and
`extractUniqueFeatures`. -/
structure LibM (F : Type) where
  fabs : F → F
  sqrt : F → F
  log : F → F

/-- The fields of `pcl::PointCloud` that the code reads or writes.  The type is
declared outside the source file; `width` and `height` are taken as natural
numbers. -/
structure PointCloud (Hdr P : Type) where
  header : Hdr
  points : List P
  width : Nat
  height : Nat
  is_dense : Bool

/-- A default-constructed cloud: what a fresh `FeatureCloud ()` is, and what
stands for the null pointers that `resize` appends to `features_at_scale`
(every one of them is overwritten before it is read). -/
def PointCloud.fresh {Hdr P : Type} [Inhabited Hdr] : PointCloud Hdr P :=
  { header := default, points := [], width := 0, height := 0, is_dense := true }

/-- The feature estimator `feature_estimator_`: `getInputCloud ()`, and
`setRadiusSearch (scale)` followed by `compute (cloud)` as one function of the
radius. -/
structure FeatureEstimator (F Hdr PointSource PointFeature : Type) where
  getInputCloud : PointCloud Hdr PointSource
  compute : F → PointCloud Hdr PointFeature

/-- The point representation `feature_representation_`:
`getNumberOfDimensions ()` and `vectorize`, which fills component `d` of the
output vector for each `d` below the number of dimensions. -/
structure PointRepresentation (F PointFeature : Type) where
  getNumberOfDimensions : Nat
  vectorize : PointFeature → Nat → F

/-- The object: configuration followed by the working members. -/
structure MultiscaleFeaturePersistence (F Hdr PointSource PointFeature : Type) where
  /-- result of `PCLBase<PointSource>::initCompute ()` -/
  base_initCompute : Bool
  distance_metric_ : DistanceMetric
  feature_estimator_ : Option (FeatureEstimator F Hdr PointSource PointFeature)
  feature_representation_ : PointRepresentation F PointFeature
  scale_values_ : List F
  alpha_ : F
  mean_feature : List F
  features_at_scale : List (PointCloud Hdr PointFeature)
  features_at_scale_vectorized : List (List (List F))
  unique_features_indices : List (List Nat)
  unique_features_table : List (List Bool)

/-- The method `std::vector::resize (n)`: keep the first `n` elements, pad with
`fill`. -/
def resize {α : Type} (v : List α) (n : Nat) (fill : α) : List α :=
  v.take n ++ List.replicate (n - v.length) fill

section Code

variable {F Hdr PointSource PointFeature : Type}
variable [Zero F] [Add F] [Sub F] [Mul F] [Div F] [Neg F] [NatCast F]
variable [LT F] [DecidableRel (fun a b : F => a < b)]
variable [Inhabited Hdr]

/-- `initCompute`: the three checks, then `mean_feature.resize`. -/
def initCompute (m : MultiscaleFeaturePersistence F Hdr PointSource PointFeature) :
    Bool × MultiscaleFeaturePersistence F Hdr PointSource PointFeature :=
  if !m.base_initCompute then (false, m)
  else if m.feature_estimator_.isNone then (false, m)
  else if m.scale_values_.isEmpty then (false, m)
  else
    let dims := m.feature_representation_.getNumberOfDimensions
    (true, { m with mean_feature := resize m.mean_feature dims 0 })

/-- `computeFeatureAtScale`. -/
def computeFeatureAtScale (est : FeatureEstimator F Hdr PointSource PointFeature)
    (scale : F) : PointCloud Hdr PointFeature :=
  est.compute scale

/-- The inner loop of `computeFeaturesAtAllScales`: one vector of
`getNumberOfDimensions ()` components per point of the cloud. -/
def vectorizeCloud (rep : PointRepresentation F PointFeature)
    (feature_cloud : PointCloud Hdr PointFeature) : List (List F) :=
  feature_cloud.points.map fun p =>
    (List.range rep.getNumberOfDimensions).map (rep.vectorize p)

/-- `computeFeaturesAtAllScales`: both members are resized to the number of
scales, then entry `scale_i` of each is assigned for every scale. -/
def computeFeaturesAtAllScales (est : FeatureEstimator F Hdr PointSource PointFeature)
    (m : MultiscaleFeaturePersistence F Hdr PointSource PointFeature) :
    MultiscaleFeaturePersistence F Hdr PointSource PointFeature :=
  let m0 := { m with
    features_at_scale := resize m.features_at_scale m.scale_values_.length PointCloud.fresh
    features_at_scale_vectorized :=
      resize m.features_at_scale_vectorized m.scale_values_.length [] }
  (List.range m.scale_values_.length).foldl (fun acc scale_i =>
    let feature_cloud := computeFeatureAtScale est (m.scale_values_.getD scale_i 0)
    { acc with
      features_at_scale := acc.features_at_scale.set scale_i feature_cloud
      features_at_scale_vectorized :=
        acc.features_at_scale_vectorized.set scale_i
          (vectorizeCloud m.feature_representation_ feature_cloud) }) m0

/-- `distanceBetweenFeatures`: `dist` starts at `0.0f` and accumulates over
`i < a.size ()` in index order; `b` is read at the same index. -/
def distanceBetweenFeatures (L : LibM F) (distance_metric_ : DistanceMetric)
    (a b : List F) : F :=
  let idx := List.range a.length
  let at_ (v : List F) (i : Nat) : F := v.getD i 0
  match distance_metric_ with
  | .MANHATTAN =>
    idx.foldl (fun dist i => dist + L.fabs (at_ a i - at_ b i)) 0
  | .EUCLIDEAN =>
    L.sqrt (idx.foldl (fun dist i => dist + (at_ a i - at_ b i) * (at_ a i - at_ b i)) 0)
  | .JEFFRIES_MATUSITA =>
    L.sqrt (idx.foldl (fun dist i =>
      dist + (L.sqrt (L.fabs (at_ a i)) - L.sqrt (L.fabs (at_ b i))) *
        (L.sqrt (L.fabs (at_ a i)) - L.sqrt (L.fabs (at_ b i)))) 0)
  | .BHATTACHARYYA =>
    - L.log (idx.foldl (fun dist i => dist + L.sqrt (L.fabs (at_ a i - at_ b i))) 0)
  | .CHI_SQUARE =>
    idx.foldl (fun dist i =>
      dist + (at_ a i - at_ b i) * (at_ a i - at_ b i) / (at_ a i + at_ b i)) 0
  | .KL_DIVERGENCE =>
    idx.foldl (fun dist i => dist + (at_ a i - at_ b i) * L.log (at_ a i / at_ b i)) 0

/-- A loop `for (i = 0; i < n; ++i) v[i] = g (i, v[i]);` over a vector. -/
def updateEach (n : Nat) (g : Nat → F → F) (v : List F) : List F :=
  (List.range n).foldl (fun acc i => acc.set i (g i (acc.getD i 0))) v

/-- The accumulation loops of `calculateMeanFeature`: the pair is
(`normalization_factor`, `mean_feature`). -/
def accumulateFeatures (dims : Nat) (features_at_scale_vectorized : List (List (List F)))
    (init : F × List F) : F × List F :=
  features_at_scale_vectorized.foldl (fun acc scale =>
    (acc.1 + (scale.length : F),
     scale.foldl (fun mean feature =>
       updateEach dims (fun dim_i x => x + feature.getD dim_i 0) mean) acc.2)) init

/-- `calculateMeanFeature`: reset, accumulate over every vector of every
scale, divide each component by `normalization_factor`.  The division is the
one of `F`; it is applied whatever the divisor is (no test precedes it). -/
def calculateMeanFeature (m : MultiscaleFeaturePersistence F Hdr PointSource PointFeature) :
    MultiscaleFeaturePersistence F Hdr PointSource PointFeature :=
  let dims := m.feature_representation_.getNumberOfDimensions
  let reset := updateEach dims (fun _ _ => 0) m.mean_feature
  let acc := accumulateFeatures dims m.features_at_scale_vectorized (0, reset)
  { m with mean_feature := updateEach dims (fun _ x => x / acc.1) acc.2 }

/-- The vector `diff_vector` of `extractUniqueFeatures` for one scale. -/
def diffVector (L : LibM F) (distance_metric_ : DistanceMetric) (mean_feature : List F)
    (vectors : List (List F)) : List F :=
  vectors.map fun v => distanceBetweenFeatures L distance_metric_ v mean_feature

/-- The value `standard_dev` of `extractUniqueFeatures` for one scale: the
squares are accumulated in point order, divided by the number of vectors, and
the square root is taken. -/
def standardDev (L : LibM F) (distance_metric_ : DistanceMetric) (mean_feature : List F)
    (vectors : List (List F)) : F :=
  L.sqrt ((diffVector L distance_metric_ mean_feature vectors).foldl
    (fun standard_dev diff => standard_dev + diff * diff) 0 / (vectors.length : F))

/-- The selection loop of `extractUniqueFeatures` for one scale: the pair is
(`indices_per_scale`, `indices_table_per_scale`). -/
def selectUnique (alpha_ standard_dev : F) (diff_vector : List F) (npoints : Nat) :
    List Nat × List Bool :=
  (List.range npoints).foldl (fun acc point_i =>
    if diff_vector.getD point_i 0 > alpha_ * standard_dev then
      (acc.1 ++ [point_i], acc.2.set point_i true)
    else acc) ([], List.replicate npoints false)

/-- The body of the scale loop of `extractUniqueFeatures`: the pair
(`indices_per_scale`, `indices_table_per_scale`) for scale `scale_i`.  The
selection loop runs over the points of `features_at_scale[scale_i]`. -/
def uniqueAtScale (L : LibM F)
    (m : MultiscaleFeaturePersistence F Hdr PointSource PointFeature) (scale_i : Nat) :
    List Nat × List Bool :=
  let vectors := m.features_at_scale_vectorized.getD scale_i []
  let diff_vector := diffVector L m.distance_metric_ m.mean_feature vectors
  let standard_dev := standardDev L m.distance_metric_ m.mean_feature vectors
  let npoints := (m.features_at_scale.getD scale_i PointCloud.fresh).points.length
  selectUnique m.alpha_ standard_dev diff_vector npoints

/-- `extractUniqueFeatures`: both members are resized to the number of scale
values; the loop runs over the scales of `features_at_scale_vectorized`. -/
def extractUniqueFeatures (L : LibM F)
    (m : MultiscaleFeaturePersistence F Hdr PointSource PointFeature) :
    MultiscaleFeaturePersistence F Hdr PointSource PointFeature :=
  let m0 := { m with
    unique_features_indices := resize m.unique_features_indices m.scale_values_.length []
    unique_features_table := resize m.unique_features_table m.scale_values_.length [] }
  (List.range m.features_at_scale_vectorized.length).foldl (fun acc scale_i =>
    { acc with
      unique_features_indices :=
        acc.unique_features_indices.set scale_i (uniqueAtScale L m scale_i).1
      unique_features_table :=
        acc.unique_features_table.set scale_i (uniqueAtScale L m scale_i).2 }) m0

/-- The inner loop of the persistence stage for one index `feature`:
`present_in_all = present_in_all && unique_features_table[scale_i][feature]`
over the scales in `scales`.  The right operand of `&&` is read only while
`present_in_all` is still true; `none` is an out-of-range read. -/
def presentInAll (unique_features_table : List (List Bool)) (feature : Nat) :
    List Nat → Bool → Option Bool
  | [], present_in_all => some present_in_all
  | scale_i :: scales, present_in_all =>
    if present_in_all then
      match unique_features_table[scale_i]? with
      | none => none
      | some table =>
        match table[feature]? with
        | none => none
        | some flag => presentInAll unique_features_table feature scales flag
    else presentInAll unique_features_table feature scales false

/-- The outer loop of the persistence stage ("Method 2") over the indices of
`unique_features_indices.front ()`; the pair is (`output_features.points`,
`output_indices`).  The inner loop runs over `scale_i <
features_at_scale.size ()`; a surviving index appends
`features_at_scale.front ()->points[feature]` and the index. -/
def persistentLoop (unique_features_table : List (List Bool))
    (features_at_scale : List (PointCloud Hdr PointFeature)) :
    List Nat → List PointFeature × List Nat → Option (List PointFeature × List Nat)
  | [], out => some out
  | feature :: rest, out =>
    match presentInAll unique_features_table feature
        (List.range features_at_scale.length) true with
    | none => none
    | some false => persistentLoop unique_features_table features_at_scale rest out
    | some true =>
      match features_at_scale.head? with
      | none => none
      | some front_cloud =>
        match front_cloud.points[feature]? with
        | none => none
        | some p =>
          persistentLoop unique_features_table features_at_scale rest
            (out.1 ++ [p], out.2 ++ [feature])

/-- The working members after the three stages that follow a successful
`initCompute`. -/
def stages (L : LibM F) (est : FeatureEstimator F Hdr PointSource PointFeature)
    (m : MultiscaleFeaturePersistence F Hdr PointSource PointFeature) :
    MultiscaleFeaturePersistence F Hdr PointSource PointFeature :=
  extractUniqueFeatures L (calculateMeanFeature (computeFeaturesAtAllScales est m))

/-- `determinePersistentFeatures (output_features, output_indices)`.  The
function returns `void`: the result is the object and the two output
arguments as the call leaves them.  `none` is returned exactly where the C++
reads out of range (or dereferences an absent estimator); there is no other
failure path.  Indices are stored as `int`; they are kept as the natural
numbers they are (PCL point indices fit an `int`). -/
def determinePersistentFeatures (L : LibM F)
    (m : MultiscaleFeaturePersistence F Hdr PointSource PointFeature)
    (output_features : PointCloud Hdr PointFeature) (output_indices : List Nat) :
    Option (MultiscaleFeaturePersistence F Hdr PointSource PointFeature ×
      PointCloud Hdr PointFeature × List Nat) :=
  match initCompute m with
  | (false, m1) => some (m1, output_features, output_indices)
  | (true, m1) =>
    match m1.feature_estimator_ with
    | none => none
    | some est =>
      let m2 := stages L est m1
      match m2.unique_features_indices.head? with
      | none => none
      | some front =>
        match persistentLoop m2.unique_features_table m2.features_at_scale front
            (output_features.points, output_indices) with
        | none => none
        | some out =>
          some (m2,
            { header := est.getInputCloud.header
              points := out.1
              width := out.1.length
              height := 1
              is_dense := est.getInputCloud.is_dense },
            out.2)

/-- The test of the selection loop of `extractUniqueFeatures` for point
`point_i` of scale `scale_i`: `diff_vector[point_i] > alpha_ * standard_dev`. -/
def isUnique (L : LibM F)
    (m : MultiscaleFeaturePersistence F Hdr PointSource PointFeature)
    (scale_i point_i : Nat) : Bool :=
  let vectors := m.features_at_scale_vectorized.getD scale_i []
  decide ((diffVector L m.distance_metric_ m.mean_feature vectors).getD point_i 0 >
    m.alpha_ * standardDev L m.distance_metric_ m.mean_feature vectors)

/-- Persistence in the words of the specification: the flagged-index list of
the first scale, restricted in its own order to the indices whose flag is
true in the boolean mask of every scale. -/
def persistentIndices (m : MultiscaleFeaturePersistence F Hdr PointSource PointFeature) :
    List Nat :=
  (m.unique_features_indices.headD []).filter fun i =>
    m.unique_features_table.all fun mask => mask[i]? == some true

end Code

/-! ## Concrete configurations

Exact rational arithmetic, one-component descriptors, Manhattan metric. -/

/-- A square root on the rationals: the integer square roots of numerator and
denominator; exact on squares. -/
def sqrtQ (x : ℚ) : ℚ := (Nat.sqrt x.num.toNat : ℚ) / (Nat.sqrt x.den : ℚ)

/-- The library functions on the rationals (`log` is not used by the Manhattan
metric of the examples). -/
def libQ : LibM ℚ := { fabs := fun x => |x|, sqrt := sqrtQ, log := fun _ => 0 }

/-- A feature cloud with the given descriptors. -/
def cloudOf (points : List ℚ) : PointCloud Nat ℚ :=
  { header := 0, points := points, width := points.length, height := 1, is_dense := true }

/-- An estimator whose input cloud has header `7` and is not dense, and which
returns the descriptors `a` at radius 1, `b` at radius 2 and `c` elsewhere. -/
def estimatorOf (a b c : List ℚ) : FeatureEstimator ℚ Nat Unit ℚ :=
  { getInputCloud := { header := 7, points := [], width := 0, height := 1, is_dense := false }
    compute := fun r => if r = 1 then cloudOf a else if r = 2 then cloudOf b else cloudOf c }

/-- A freshly constructed object with the given estimator, scale values and
`alpha_`: Manhattan metric, one-dimensional representation, empty members. -/
def configOf (est : FeatureEstimator ℚ Nat Unit ℚ) (scale_values_ : List ℚ) (alpha_ : ℚ) :
    MultiscaleFeaturePersistence ℚ Nat Unit ℚ :=
  { base_initCompute := true
    distance_metric_ := .MANHATTAN
    feature_estimator_ := some est
    feature_representation_ := { getNumberOfDimensions := 1, vectorize := fun p _ => p }
    scale_values_ := scale_values_
    alpha_ := alpha_
    mean_feature := []
    features_at_scale := []
    features_at_scale_vectorized := []
    unique_features_indices := []
    unique_features_table := [] }

/-- An empty output cloud as a caller passes it. -/
def emptyOutput : PointCloud Nat ℚ :=
  { header := 0, points := [], width := 0, height := 0, is_dense := true }

/-- Three scales of two points each, around the pooled mean 10: the deviations
are (1, 7), (-1, -7) and (5, -5). -/
def threeScales : MultiscaleFeaturePersistence ℚ Nat Unit ℚ :=
  configOf (estimatorOf [11, 17] [9, 3] [15, 5]) [1, 2, 3] 1

/-- Three scales of three, three and two points, around the pooled mean 10:
the deviations are (1, 1, 5), (-5, -1, -1) and (1, -1). -/
def mismatchedScales : MultiscaleFeaturePersistence ℚ Nat Unit ℚ :=
  configOf (estimatorOf [11, 11, 15] [5, 9, 9] [11, 9]) [1, 2, 3] 1

/-- Two scales of three and two points, around the pooled mean 10: the
deviations are (2, 2, 10) and (-7, -7). -/
def shortSecondScale : MultiscaleFeaturePersistence ℚ Nat Unit ℚ :=
  configOf (estimatorOf [12, 12, 20] [3, 3] []) [1, 2] 1

/-- Two scales of two points each, around the pooled mean 10: the deviations
are (1, 7) and (-1, -7). -/
def twoScales : MultiscaleFeaturePersistence ℚ Nat Unit ℚ :=
  configOf (estimatorOf [11, 17] [9, 3] []) [1, 2] 1

/-- The two-scale configuration after `initCompute`,
`computeFeaturesAtAllScales` and `calculateMeanFeature`. -/
def twoScalesMean : MultiscaleFeaturePersistence ℚ Nat Unit ℚ :=
  calculateMeanFeature
    (computeFeaturesAtAllScales (estimatorOf [11, 17] [9, 3] []) (initCompute twoScales).2)

/-- One scale; the estimator returns no descriptor at all (its input cloud has
no point). -/
def noPoints : MultiscaleFeaturePersistence ℚ Nat Unit ℚ :=
  configOf (estimatorOf [] [] []) [1] 1

end pcl

/-! ## Lists: loops that assign every index -/

namespace pcl

theorem foldl_set_getElem? {α : Type} (g : Nat → α → α) (d : α) (k : Nat) (l : List α)
    (j : Nat) :
    ((List.range k).foldl (fun acc i => acc.set i (g i (acc.getD i d))) l)[j]? =
      if j < k then (l[j]?).map (g j) else l[j]? := by
  induction k generalizing j with
  | zero => simp
  | succ k ih =>
    rw [List.range_succ, List.foldl_append]
    simp only [List.foldl_cons, List.foldl_nil]
    have hk := ih k
    simp only [lt_irrefl, if_false] at hk
    rw [List.getElem?_set, List.getD_eq_getElem?_getD, hk]
    by_cases hjk : k = j
    · subst hjk
      rw [if_pos rfl, if_pos (Nat.lt_succ_self k)]
      cases hl : l[k]? with
      | none =>
        rw [if_neg]
        · rfl
        · intro hlt
          have := List.getElem?_eq_getElem hlt
          rw [hk, hl] at this
          cases this
      | some x =>
        rw [if_pos]
        · rfl
        · by_contra hlt
          have := List.getElem?_eq_none (Nat.le_of_not_lt hlt)
          rw [hk, hl] at this
          cases this
    · rw [if_neg hjk, ih j]
      by_cases h1 : j < k
      · rw [if_pos h1, if_pos (by omega)]
      · rw [if_neg h1, if_neg (by omega)]

theorem foldl_set_eq_map {α : Type} (g : Nat → α → α) (d : α) (l : List α) :
    (List.range l.length).foldl (fun acc i => acc.set i (g i (acc.getD i d))) l =
      (List.range l.length).map (fun i => g i (l.getD i d)) := by
  apply List.ext_getElem?
  intro j
  rw [foldl_set_getElem?, List.getElem?_map]
  by_cases h : j < l.length
  · rw [if_pos h, List.getElem?_range h, List.getElem?_eq_getElem h]
    simp [List.getD_eq_getElem?_getD, List.getElem?_eq_getElem h]
  · rw [if_neg h, List.getElem?_eq_none (Nat.le_of_not_lt h),
      List.getElem?_eq_none (by simpa using Nat.le_of_not_lt h)]
    rfl

/-- Assigning `f i` to every index of a vector of length `n` yields the table
of `f`. -/
theorem foldl_assign_eq_map {α : Type} (f : Nat → α) (n : Nat) (l : List α)
    (hl : l.length = n) :
    (List.range n).foldl (fun acc i => acc.set i (f i)) l = (List.range n).map f := by
  subst hl
  cases l with
  | nil => rfl
  | cons a t => exact foldl_set_eq_map (fun i _ => f i) a (a :: t)

theorem map_getD_range {α β : Type} (f : α → β) (d : α) (l : List α) :
    (List.range l.length).map (fun i => f (l.getD i d)) = l.map f := by
  apply List.ext_getElem?
  intro j
  rw [List.getElem?_map, List.getElem?_map]
  by_cases h : j < l.length
  · rw [List.getElem?_range h, List.getElem?_eq_getElem h]
    simp [List.getD_eq_getElem?_getD, List.getElem?_eq_getElem h]
  · rw [List.getElem?_eq_none (Nat.le_of_not_lt h),
      List.getElem?_eq_none (by simpa using Nat.le_of_not_lt h)]
    rfl

theorem getD_map_range {α : Type} (h : Nat → α) (n i : Nat) (x : α) (hi : i < n) :
    ((List.range n).map h).getD i x = h i := by
  simp [List.getD_eq_getElem?_getD, List.getElem?_range hi]

theorem getD_map_range_id {α : Type} (l : List α) (d : α) (s : Nat) :
    ((List.range l.length).map fun i => l.getD i d).getD s d = l.getD s d := by
  rw [map_getD_range (fun x : α => x) d l, List.map_id']

theorem length_resize {α : Type} (v : List α) (n : Nat) (d : α) :
    (resize v n d).length = n := by
  simp [resize]
  omega

/-- The rational square root is exact on squares of natural numbers. -/
theorem sqrtQ_sq (n : Nat) : sqrtQ ((n : ℚ) * (n : ℚ)) = (n : ℚ) := by
  have h : ((n : ℚ) * (n : ℚ)) = ((n * n : Nat) : ℚ) := by push_cast; rfl
  rw [h]
  unfold sqrtQ
  rw [Rat.num_natCast, Rat.den_natCast, Int.toNat_natCast, Nat.sqrt_eq]
  simp

section Stages

variable {F Hdr PointSource PointFeature : Type}
variable [Zero F] [Add F] [Sub F] [Mul F] [Div F] [Neg F] [NatCast F]
variable [LT F] [DecidableRel (fun a b : F => a < b)]
variable [Inhabited Hdr]

theorem updateEach_eq (n : Nat) (g : Nat → F → F) (v : List F) (hv : v.length = n) :
    updateEach n g v = (List.range n).map (fun i => g i (v.getD i 0)) := by
  subst hv
  exact foldl_set_eq_map g 0 v

/-- Closed form of `computeFeaturesAtAllScales`: one cloud and one vector set
per scale value, in the order of the scale values, whatever the two members
held before. -/
theorem computeFeaturesAtAllScales_eq
    (est : FeatureEstimator F Hdr PointSource PointFeature)
    (m : MultiscaleFeaturePersistence F Hdr PointSource PointFeature) :
    computeFeaturesAtAllScales est m =
      { m with
        features_at_scale := m.scale_values_.map est.compute
        features_at_scale_vectorized :=
          m.scale_values_.map fun s => vectorizeCloud m.feature_representation_ (est.compute s) } := by
  have key : ∀ (idxs : List Nat) (f : Nat → PointCloud Hdr PointFeature)
      (g : Nat → List (List F))
      (acc : MultiscaleFeaturePersistence F Hdr PointSource PointFeature),
      idxs.foldl (fun acc scale_i =>
        { acc with
          features_at_scale := acc.features_at_scale.set scale_i (f scale_i)
          features_at_scale_vectorized :=
            acc.features_at_scale_vectorized.set scale_i (g scale_i) }) acc =
      { acc with
        features_at_scale := idxs.foldl (fun l i => l.set i (f i)) acc.features_at_scale
        features_at_scale_vectorized :=
          idxs.foldl (fun l i => l.set i (g i)) acc.features_at_scale_vectorized } := by
    intro idxs f g
    induction idxs with
    | nil => intro acc; rfl
    | cons i rest ih => intro acc; rw [List.foldl_cons, ih]; rfl
  unfold computeFeaturesAtAllScales
  simp only [computeFeatureAtScale]
  rw [key]
  simp only
  rw [foldl_assign_eq_map _ _ _ (length_resize _ _ _),
    foldl_assign_eq_map _ _ _ (length_resize _ _ _)]
  rw [map_getD_range est.compute 0 m.scale_values_,
    map_getD_range (fun s => vectorizeCloud m.feature_representation_ (est.compute s)) 0
      m.scale_values_]

theorem foldl_updateEach_add (n : Nat) (features : List (List F)) (mean : List F)
    (hm : mean.length = n) :
    features.foldl (fun mean feature =>
        updateEach n (fun dim_i x => x + feature.getD dim_i 0) mean) mean =
      (List.range n).map fun d =>
        features.foldl (fun x feature => x + feature.getD d 0) (mean.getD d 0) := by
  induction features generalizing mean with
  | nil =>
    subst hm
    simpa using (map_getD_range (fun x : F => x) 0 mean).symm
  | cons f rest ih =>
    rw [List.foldl_cons, updateEach_eq n _ mean hm, ih _ (by simp)]
    apply List.map_congr_left
    intro d hd
    rw [List.foldl_cons, getD_map_range _ _ _ _ (List.mem_range.mp hd)]

/-- Closed form of the accumulation loops of `calculateMeanFeature`. -/
theorem accumulateFeatures_eq (n : Nat) (scales : List (List (List F))) (init : F × List F)
    (hm : init.2.length = n) :
    accumulateFeatures n scales init =
      (scales.foldl (fun nf scale => nf + (scale.length : F)) init.1,
       (List.range n).map fun d =>
         scales.flatten.foldl (fun x feature => x + feature.getD d 0) (init.2.getD d 0)) := by
  induction scales generalizing init with
  | nil =>
    obtain ⟨a, v⟩ := init
    simp only [accumulateFeatures, List.foldl_nil, List.flatten_nil]
    subst hm
    rw [map_getD_range (fun x : F => x) 0 v]
    simp
  | cons sc rest ih =>
    have h := ih (init.1 + (sc.length : F),
      sc.foldl (fun mean feature =>
        updateEach n (fun dim_i x => x + feature.getD dim_i 0) mean) init.2)
      (by rw [foldl_updateEach_add n sc init.2 hm]; simp)
    unfold accumulateFeatures at h ⊢
    rw [List.foldl_cons, h]
    simp only [List.foldl_cons, List.flatten_cons]
    rw [foldl_updateEach_add n sc init.2 hm]
    congr 1
    apply List.map_congr_left
    intro d hd
    rw [List.foldl_append, getD_map_range _ _ _ _ (List.mem_range.mp hd)]

/-- Closed form of `calculateMeanFeature` on a `mean_feature` of the declared
dimension (which `initCompute` establishes): component `d` is the running sum
of component `d` over every vector of every scale, started at zero, divided by
the running sum of the scale sizes. -/
theorem calculateMeanFeature_eq
    (m : MultiscaleFeaturePersistence F Hdr PointSource PointFeature)
    (hm : m.mean_feature.length = m.feature_representation_.getNumberOfDimensions) :
    (calculateMeanFeature m).mean_feature =
      (List.range m.feature_representation_.getNumberOfDimensions).map fun d =>
        m.features_at_scale_vectorized.flatten.foldl (fun x feature => x + feature.getD d 0) 0 /
          m.features_at_scale_vectorized.foldl (fun nf scale => nf + (scale.length : F)) 0 := by
  unfold calculateMeanFeature
  simp only
  rw [updateEach_eq _ _ m.mean_feature hm, accumulateFeatures_eq _ _ _ (by simp)]
  simp only
  rw [updateEach_eq _ _ _ (by simp)]
  apply List.map_congr_left
  intro d hd
  rw [getD_map_range _ _ _ _ (List.mem_range.mp hd), getD_map_range _ _ _ _ (List.mem_range.mp hd)]

theorem selectLoop_spec (P : Nat → Prop) [DecidablePred P] (k : Nat)
    (init : List Nat × List Bool) :
    ((List.range k).foldl (fun acc point_i =>
        if P point_i then (acc.1 ++ [point_i], acc.2.set point_i true) else acc) init).1 =
      init.1 ++ (List.range k).filter (fun i => decide (P i)) ∧
    ∀ j, ((List.range k).foldl (fun acc point_i =>
        if P point_i then (acc.1 ++ [point_i], acc.2.set point_i true) else acc) init).2[j]? =
      if j < k ∧ P j then (init.2[j]?).map (fun _ => true) else init.2[j]? := by
  induction k with
  | zero => simp
  | succ k ih =>
    obtain ⟨ih1, ih2⟩ := ih
    rw [List.range_succ, List.foldl_append]
    simp only [List.foldl_cons, List.foldl_nil]
    by_cases hk : P k
    · rw [if_pos hk]
      constructor
      · simp only
        rw [ih1, List.filter_append]
        simp [hk]
      · intro j
        simp only
        rw [List.getElem?_set]
        by_cases hjk : k = j
        · subst hjk
          have h2 := ih2 k
          rw [if_neg (by omega)] at h2
          have hR : (if k < k + 1 ∧ P k then (init.2[k]?).map (fun _ => true) else init.2[k]?) =
              (init.2[k]?).map (fun _ => true) := if_pos ⟨Nat.lt_succ_self k, hk⟩
          rw [hR, if_pos rfl]
          cases hl : init.2[k]? with
          | none =>
            rw [if_neg]
            · rfl
            · intro hlt
              have := List.getElem?_eq_getElem hlt
              rw [h2, hl] at this
              cases this
          | some x =>
            rw [if_pos]
            · rfl
            · by_contra hlt
              have := List.getElem?_eq_none (Nat.le_of_not_lt hlt)
              rw [h2, hl] at this
              cases this
        · rw [if_neg hjk, ih2 j]
          by_cases hc : j < k ∧ P j
          · rw [if_pos hc, if_pos ⟨by omega, hc.2⟩]
          · rw [if_neg hc, if_neg]
            intro hc2
            exact hc ⟨by omega, hc2.2⟩
    · rw [if_neg hk]
      constructor
      · rw [ih1, List.filter_append]
        simp [hk]
      · intro j
        rw [ih2 j]
        by_cases hc : j < k ∧ P j
        · rw [if_pos hc, if_pos ⟨by omega, hc.2⟩]
        · rw [if_neg hc, if_neg]
          intro hc2
          by_cases hjk : j = k
          · subst hjk
            exact hk hc2.2
          · exact hc ⟨by omega, hc2.2⟩

/-- Closed form of the selection loop: the ascending list of the point indices
that pass the test, and the table of the test. -/
theorem selectUnique_eq (alpha_ standard_dev : F) (diff_vector : List F) (npoints : Nat) :
    selectUnique alpha_ standard_dev diff_vector npoints =
      ((List.range npoints).filter fun i =>
          decide (diff_vector.getD i 0 > alpha_ * standard_dev),
       (List.range npoints).map fun i =>
          decide (diff_vector.getD i 0 > alpha_ * standard_dev)) := by
  obtain ⟨h1, h2⟩ := selectLoop_spec (fun i => diff_vector.getD i 0 > alpha_ * standard_dev)
    npoints ([], List.replicate npoints false)
  unfold selectUnique
  refine Prod.ext ?_ ?_
  · rw [h1]
    rfl
  · apply List.ext_getElem?
    intro j
    rw [h2 j]
    simp only
    rw [List.getElem?_map, List.getElem?_replicate]
    by_cases hj : j < npoints
    · rw [List.getElem?_range hj, if_pos hj]
      by_cases hf : diff_vector.getD j 0 > alpha_ * standard_dev
      · rw [if_pos ⟨hj, hf⟩]
        simp only [Option.map_some', decide_eq_true hf]
      · rw [if_neg (fun h => hf h.2)]
        simp only [Option.map_some', decide_eq_false hf]
    · rw [List.getElem?_eq_none (by simpa using Nat.le_of_not_lt hj), if_neg (fun h => hj h.1),
        if_neg hj]
      rfl

/-- Closed form of `extractUniqueFeatures` when there is one vector set per
scale value (which `computeFeaturesAtAllScales` establishes): one list and one
table per scale, whatever the two members held before. -/
theorem extractUniqueFeatures_eq (L : LibM F)
    (m : MultiscaleFeaturePersistence F Hdr PointSource PointFeature)
    (hlen : m.features_at_scale_vectorized.length = m.scale_values_.length) :
    extractUniqueFeatures L m =
      { m with
        unique_features_indices :=
          (List.range m.scale_values_.length).map fun i => (uniqueAtScale L m i).1
        unique_features_table :=
          (List.range m.scale_values_.length).map fun i => (uniqueAtScale L m i).2 } := by
  have key : ∀ (idxs : List Nat) (f : Nat → List Nat) (g : Nat → List Bool)
      (acc : MultiscaleFeaturePersistence F Hdr PointSource PointFeature),
      idxs.foldl (fun acc scale_i =>
        { acc with
          unique_features_indices := acc.unique_features_indices.set scale_i (f scale_i)
          unique_features_table := acc.unique_features_table.set scale_i (g scale_i) }) acc =
      { acc with
        unique_features_indices := idxs.foldl (fun l i => l.set i (f i)) acc.unique_features_indices
        unique_features_table := idxs.foldl (fun l i => l.set i (g i)) acc.unique_features_table } := by
    intro idxs f g
    induction idxs with
    | nil => intro acc; rfl
    | cons i rest ih => intro acc; rw [List.foldl_cons, ih]; rfl
  unfold extractUniqueFeatures
  simp only
  rw [key, hlen]
  simp only
  rw [foldl_assign_eq_map _ _ _ (length_resize _ _ _),
    foldl_assign_eq_map _ _ _ (length_resize _ _ _)]

end Stages

/-! ## The persistence loop -/

/-- When every mask consulted is long enough, the inner loop returns the
conjunction of the flags of the index over the scales. -/
theorem presentInAll_eq (table : List (List Bool)) (feature : Nat) (scales : List Nat)
    (present : Bool)
    (h : ∀ s ∈ scales, ∃ mask, table[s]? = some mask ∧ feature < mask.length) :
    presentInAll table feature scales present =
      some (present && scales.all fun s => (table.getD s []).getD feature false) := by
  induction scales generalizing present with
  | nil => simp [presentInAll]
  | cons s rest ih =>
    have hrest : ∀ t ∈ rest, ∃ mask, table[t]? = some mask ∧ feature < mask.length :=
      fun t ht => h t (List.mem_cons_of_mem _ ht)
    obtain ⟨mask, hmask, hlt⟩ := h s (List.mem_cons_self _ _)
    cases present with
    | false =>
      rw [presentInAll, if_neg (by simp), ih false hrest]
      rfl
    | true =>
      rw [presentInAll, if_pos rfl, hmask]
      simp only
      rw [List.getElem?_eq_getElem hlt]
      simp only
      rw [ih _ hrest]
      simp [List.getD_eq_getElem?_getD, hmask, List.getElem?_eq_getElem hlt]

/-- An out-of-range mask read that is reached makes the inner loop undefined:
the index is flagged in every scale before `s`, and the mask of `s` is too
short. -/
theorem presentInAll_none (table : List (List Bool)) (feature : Nat) (pre post : List Nat)
    (s : Nat) (mask : List Bool)
    (hpre : ∀ t ∈ pre, ∃ mk, table[t]? = some mk ∧ mk[feature]? = some true)
    (hs : table[s]? = some mask) (hshort : mask.length ≤ feature) :
    presentInAll table feature (pre ++ s :: post) true = none := by
  induction pre with
  | nil =>
    rw [List.nil_append, presentInAll, if_pos rfl, hs]
    simp only
    rw [List.getElem?_eq_none hshort]
  | cons t rest ih =>
    obtain ⟨mk, hmk, hflag⟩ := hpre t (List.mem_cons_self _ _)
    rw [List.cons_append, presentInAll, if_pos rfl, hmk]
    simp only
    rw [hflag]
    exact ih fun u hu => hpre u (List.mem_cons_of_mem _ hu)

theorem presentInAll_false (table : List (List Bool)) (feature : Nat) (scales : List Nat) :
    presentInAll table feature scales false = some false := by
  induction scales with
  | nil => rfl
  | cons s rest ih => rw [presentInAll, if_neg (by decide), ih]

/-- The inner loop answers `true` exactly when every mask consulted holds a
true flag for the index. -/
theorem presentInAll_true_iff (table : List (List Bool)) (feature : Nat) (scales : List Nat) :
    presentInAll table feature scales true = some true ↔
      ∀ s ∈ scales, ∃ mask, table[s]? = some mask ∧ mask[feature]? = some true := by
  induction scales with
  | nil => simp [presentInAll]
  | cons s rest ih =>
    rw [presentInAll, if_pos rfl]
    cases hs : table[s]? with
    | none =>
      simp only
      constructor
      · intro h; cases h
      · intro h
        obtain ⟨mask, hm, -⟩ := h s (List.mem_cons_self _ _)
        rw [hs] at hm; cases hm
    | some mask =>
      simp only
      cases hf : mask[feature]? with
      | none =>
        simp only
        constructor
        · intro h; cases h
        · intro h
          obtain ⟨mk, hm, hflag⟩ := h s (List.mem_cons_self _ _)
          rw [hs] at hm
          cases hm
          rw [hf] at hflag; cases hflag
      | some flag =>
        simp only
        cases flag with
        | false =>
          rw [presentInAll_false]
          constructor
          · intro h; cases h
          · intro h
            obtain ⟨mk, hm, hflag⟩ := h s (List.mem_cons_self _ _)
            rw [hs] at hm
            cases hm
            rw [hf] at hflag; cases hflag
        | true =>
          rw [ih]
          constructor
          · intro h t ht
            rcases List.mem_cons.mp ht with rfl | ht'
            · exact ⟨mask, hs, hf⟩
            · exact h t ht'
          · intro h t ht
            exact h t (List.mem_cons_of_mem _ ht)

section Persist

variable {Hdr PointFeature : Type}

/-- When every read is in range, the outer loop appends, in the order of the
list it walks, the indices flagged in every scale and the front cloud's points
at those indices. -/
theorem persistentLoop_eq (table : List (List Bool))
    (features_at_scale : List (PointCloud Hdr PointFeature))
    (front_cloud : PointCloud Hdr PointFeature) (front : List Nat)
    (out : List PointFeature × List Nat)
    (hhead : features_at_scale.head? = some front_cloud)
    (hmask : ∀ i ∈ front, ∀ s < features_at_scale.length,
      ∃ mask, table[s]? = some mask ∧ i < mask.length)
    (hpts : ∀ i ∈ front, i < front_cloud.points.length) :
    persistentLoop table features_at_scale front out =
      some (out.1 ++ (front.filter fun i => (List.range features_at_scale.length).all
                fun s => (table.getD s []).getD i false).filterMap
              (fun i => front_cloud.points[i]?),
            out.2 ++ front.filter fun i => (List.range features_at_scale.length).all
                fun s => (table.getD s []).getD i false) := by
  induction front generalizing out with
  | nil => simp [persistentLoop]
  | cons i rest ih =>
    have hm : ∀ s ∈ List.range features_at_scale.length,
        ∃ mask, table[s]? = some mask ∧ i < mask.length :=
      fun s hs => hmask i (List.mem_cons_self _ _) s (List.mem_range.mp hs)
    have hi : i < front_cloud.points.length := hpts i (List.mem_cons_self _ _)
    have ih2 := fun o => ih o (fun j hj => hmask j (List.mem_cons_of_mem _ hj))
      (fun j hj => hpts j (List.mem_cons_of_mem _ hj))
    rw [persistentLoop, presentInAll_eq table i _ true hm, Bool.true_and]
    cases hp : (List.range features_at_scale.length).all
        (fun s => (table.getD s []).getD i false) with
    | false =>
      simp only
      rw [ih2, List.filter_cons_of_neg (by simp only [hp]; decide)]
    | true =>
      simp only
      rw [hhead]
      simp only
      rw [List.getElem?_eq_getElem hi]
      simp only
      rw [ih2, List.filter_cons_of_pos (by simp only [hp]), List.filterMap_cons_some
        (List.getElem?_eq_getElem hi)]
      simp

/-- An out-of-range mask read that is reached makes the outer loop
undefined, wherever the index stands in the list. -/
theorem persistentLoop_none (table : List (List Bool))
    (features_at_scale : List (PointCloud Hdr PointFeature)) (front : List Nat)
    (out : List PointFeature × List Nat) (i : Nat) (hi : i ∈ front)
    (hnone : presentInAll table i (List.range features_at_scale.length) true = none) :
    persistentLoop table features_at_scale front out = none := by
  induction front generalizing out with
  | nil => cases hi
  | cons j rest ih =>
    rw [persistentLoop]
    rcases List.mem_cons.mp hi with hij | hmem
    · subst hij
      rw [hnone]
    · cases hj : presentInAll table j (List.range features_at_scale.length) true with
      | none => rfl
      | some b =>
        cases b with
        | false => exact ih _ hmem
        | true =>
          simp only
          cases features_at_scale.head? with
          | none => rfl
          | some c =>
            simp only
            cases c.points[j]? with
            | none => rfl
            | some q => exact ih _ hmem

/-- Whenever the outer loop returns, it has appended, in the order of the
list it walks, exactly the indices for which the inner loop answered `true`,
and one point per appended index. -/
theorem persistentLoop_some (table : List (List Bool))
    (features_at_scale : List (PointCloud Hdr PointFeature)) (front : List Nat)
    (out res : List PointFeature × List Nat)
    (h : persistentLoop table features_at_scale front out = some res) :
    res.2 = out.2 ++ front.filter (fun i =>
        presentInAll table i (List.range features_at_scale.length) true == some true) ∧
      ∃ pts, res.1 = out.1 ++ pts ∧ pts.length = (front.filter fun i =>
        presentInAll table i (List.range features_at_scale.length) true == some true).length := by
  induction front generalizing out with
  | nil =>
    rw [persistentLoop] at h
    cases h
    exact ⟨by simp, [], by simp, rfl⟩
  | cons i rest ih =>
    rw [persistentLoop] at h
    cases hp : presentInAll table i (List.range features_at_scale.length) true with
    | none => rw [hp] at h; cases h
    | some b =>
      rw [hp] at h
      cases b with
      | false =>
        simp only at h
        obtain ⟨h1, pts, h2, h3⟩ := ih out h
        rw [List.filter_cons_of_neg (by rw [hp]; decide)]
        exact ⟨h1, pts, h2, h3⟩
      | true =>
        simp only at h
        cases hc : features_at_scale.head? with
        | none => rw [hc] at h; cases h
        | some c =>
          rw [hc] at h
          simp only at h
          cases hq : c.points[i]? with
          | none => rw [hq] at h; cases h
          | some q =>
            rw [hq] at h
            simp only at h
            obtain ⟨h1, pts, h2, h3⟩ := ih _ h
            rw [List.filter_cons_of_pos (by rw [hp]; decide)]
            refine ⟨by rw [h1]; simp, q :: pts, by rw [h2]; simp, by simp [h3]⟩

end Persist

end pcl

/-! ## The whole run -/

namespace pcl

section Run

variable {F Hdr PointSource PointFeature : Type}
variable [Zero F] [Add F] [Sub F] [Mul F] [Div F] [Neg F] [NatCast F]
variable [LT F] [DecidableRel (fun a b : F => a < b)]
variable [Inhabited Hdr]

theorem uniqueAtScale_eq (L : LibM F)
    (m : MultiscaleFeaturePersistence F Hdr PointSource PointFeature) (scale_i : Nat) :
    uniqueAtScale L m scale_i =
      ((List.range (m.features_at_scale.getD scale_i PointCloud.fresh).points.length).filter
          (isUnique L m scale_i),
       (List.range (m.features_at_scale.getD scale_i PointCloud.fresh).points.length).map
          (isUnique L m scale_i)) := by
  unfold uniqueAtScale
  simp only
  rw [selectUnique_eq]
  rfl

/-- What a successful `initCompute` has checked and done. -/
theorem initCompute_true (m : MultiscaleFeaturePersistence F Hdr PointSource PointFeature)
    (h : (initCompute m).1 = true) :
    m.base_initCompute = true ∧ m.feature_estimator_.isSome = true ∧ m.scale_values_ ≠ [] ∧
      (initCompute m).2 =
      { m with mean_feature :=
          resize m.mean_feature m.feature_representation_.getNumberOfDimensions 0 } := by
  unfold initCompute at h ⊢
  cases hb : m.base_initCompute with
  | false => simp [hb] at h
  | true =>
    cases he : m.feature_estimator_ with
    | none => simp [hb, he] at h
    | some est =>
      cases hs : m.scale_values_ with
      | nil => simp [hb, he, hs] at h
      | cons a t => simp [hb, he, hs]

/-- What a failing `initCompute` has found, and that it changes nothing. -/
theorem initCompute_false (m : MultiscaleFeaturePersistence F Hdr PointSource PointFeature) :
    (initCompute m).1 = false ↔
      (m.base_initCompute = false ∨ m.feature_estimator_ = none ∨ m.scale_values_ = []) := by
  unfold initCompute
  cases hb : m.base_initCompute with
  | false => simp
  | true =>
    cases he : m.feature_estimator_ with
    | none => simp
    | some est =>
      cases hs : m.scale_values_ with
      | nil => simp
      | cons a t => simp

/-- The members after the three stages, in closed form. -/
theorem stages_eq (L : LibM F) (est : FeatureEstimator F Hdr PointSource PointFeature)
    (m : MultiscaleFeaturePersistence F Hdr PointSource PointFeature) :
    stages L est m =
      { calculateMeanFeature (computeFeaturesAtAllScales est m) with
        unique_features_indices := (List.range m.scale_values_.length).map fun s =>
          (List.range ((m.scale_values_.map est.compute).getD s PointCloud.fresh).points.length).filter
            (fun p => isUnique L (calculateMeanFeature (computeFeaturesAtAllScales est m)) s p)
        unique_features_table := (List.range m.scale_values_.length).map fun s =>
          (List.range ((m.scale_values_.map est.compute).getD s PointCloud.fresh).points.length).map
            (fun p => isUnique L (calculateMeanFeature (computeFeaturesAtAllScales est m)) s p) } := by
  have h1 : (calculateMeanFeature (computeFeaturesAtAllScales est m)).features_at_scale =
      m.scale_values_.map est.compute := by
    rw [computeFeaturesAtAllScales_eq]; rfl
  have h2 : (calculateMeanFeature (computeFeaturesAtAllScales est m)).features_at_scale_vectorized =
      m.scale_values_.map (fun s => vectorizeCloud m.feature_representation_ (est.compute s)) := by
    rw [computeFeaturesAtAllScales_eq]; rfl
  have h3 : (calculateMeanFeature (computeFeaturesAtAllScales est m)).scale_values_ =
      m.scale_values_ := by
    rw [computeFeaturesAtAllScales_eq]; rfl
  unfold stages
  rw [extractUniqueFeatures_eq L _ (by rw [h2, h3, List.length_map])]
  simp only [uniqueAtScale_eq, h1, h3]

theorem getD_eq_beq_some_true (mask : List Bool) (i : Nat) :
    mask.getD i false = (mask[i]? == some true) := by
  rw [List.getD_eq_getElem?_getD]
  cases mask[i]? with
  | none => rfl
  | some b => cases b <;> rfl

theorem all_map_bool {α : Type} (l : List α) (f : α → Bool) :
    ((l.map f).all fun b => b) = l.all f := by
  induction l with
  | nil => rfl
  | cons a t ih => simp only [List.map_cons, List.all_cons, ih]

theorem all_range_getD (table : List (List Bool)) (i : Nat) :
    ((List.range table.length).all fun s => (table.getD s []).getD i false) =
      table.all fun mask => mask[i]? == some true := by
  have h := map_getD_range (fun mask : List Bool => mask[i]? == some true) [] table
  calc ((List.range table.length).all fun s => (table.getD s []).getD i false)
      = (((List.range table.length).map fun s =>
          ((table.getD s [])[i]? == some true)).all fun b => b) := by
        rw [all_map_bool]
        congr 1
        funext s
        exact getD_eq_beq_some_true _ _
    _ = ((table.map fun mask => mask[i]? == some true).all fun b => b) := by rw [h]
    _ = table.all fun mask => mask[i]? == some true := by
        rw [all_map_bool]

/-- The run in closed form when the estimator returns the same number `n0` of
points at every scale: it returns normally, with the indices of
`persistentIndices` and the front cloud's points at those indices appended to
the outputs. -/
theorem determinePersistentFeatures_eq (L : LibM F)
    (m : MultiscaleFeaturePersistence F Hdr PointSource PointFeature)
    (est : FeatureEstimator F Hdr PointSource PointFeature)
    (output_features : PointCloud Hdr PointFeature) (output_indices : List Nat) (n0 : Nat)
    (hinit : (initCompute m).1 = true) (hest : m.feature_estimator_ = some est)
    (hpts : ∀ s ∈ m.scale_values_, (est.compute s).points.length = n0) :
    ∃ front_cloud front mask0,
      (stages L est (initCompute m).2).features_at_scale.head? = some front_cloud ∧
      (stages L est (initCompute m).2).unique_features_indices.head? = some front ∧
      (stages L est (initCompute m).2).unique_features_table.head? = some mask0 ∧
      front_cloud.points.length = n0 ∧
      (∀ mask ∈ (stages L est (initCompute m).2).unique_features_table, mask.length = n0) ∧
      (∀ i, i ∈ front ↔ mask0[i]? = some true) ∧
      determinePersistentFeatures L m output_features output_indices =
        some (stages L est (initCompute m).2,
          { header := est.getInputCloud.header
            points := output_features.points ++
              (persistentIndices (stages L est (initCompute m).2)).filterMap
                (fun i => front_cloud.points[i]?)
            width := (output_features.points ++
              (persistentIndices (stages L est (initCompute m).2)).filterMap
                (fun i => front_cloud.points[i]?)).length
            height := 1
            is_dense := est.getInputCloud.is_dense },
          output_indices ++ persistentIndices (stages L est (initCompute m).2)) := by
  obtain ⟨-, -, hne, h2⟩ := initCompute_true m hinit
  have hpair : initCompute m = (true, (initCompute m).2) := Prod.ext hinit rfl
  have hsc : (initCompute m).2.scale_values_ = m.scale_values_ := by rw [h2]
  have hes : (initCompute m).2.feature_estimator_ = some est := by rw [h2]; exact hest
  generalize (initCompute m).2 = m1 at *
  obtain ⟨s0, rest, hs⟩ : ∃ s0 rest, m.scale_values_ = s0 :: rest := by
    cases hm : m.scale_values_ with
    | nil => exact absurd hm hne
    | cons a t => exact ⟨a, t, rfl⟩
  -- the members after the stages
  have hF : (stages L est m1).features_at_scale = m.scale_values_.map est.compute := by
    rw [stages_eq, computeFeaturesAtAllScales_eq, hsc]; rfl
  have hnp : ∀ s ∈ List.range m.scale_values_.length,
      ((m.scale_values_.map est.compute).getD s PointCloud.fresh).points.length = n0 := by
    intro s hsm
    have hlt : s < m.scale_values_.length := List.mem_range.mp hsm
    rw [List.getD_eq_getElem?_getD, List.getElem?_map, List.getElem?_eq_getElem hlt]
    exact hpts _ (List.getElem_mem _)
  have hT : (stages L est m1).unique_features_table =
      (List.range m.scale_values_.length).map fun s =>
        (List.range n0).map
          (isUnique L (calculateMeanFeature (computeFeaturesAtAllScales est m1)) s) := by
    rw [stages_eq, hsc]
    simp only
    apply List.map_congr_left
    intro s hsm
    rw [hnp s hsm]
  have hI : (stages L est m1).unique_features_indices =
      (List.range m.scale_values_.length).map fun s =>
        (List.range n0).filter
          (isUnique L (calculateMeanFeature (computeFeaturesAtAllScales est m1)) s) := by
    rw [stages_eq, hsc]
    simp only
    apply List.map_congr_left
    intro s hsm
    rw [hnp s hsm]
  have hlenT : (stages L est m1).unique_features_table.length =
      (stages L est m1).features_at_scale.length := by
    rw [hT, hF]; simp
  have hhead : (stages L est m1).features_at_scale.head? = some (est.compute s0) := by
    rw [hF, hs]; rfl
  have hfront : (stages L est m1).unique_features_indices.head? =
      some ((List.range n0).filter
        (isUnique L (calculateMeanFeature (computeFeaturesAtAllScales est m1)) 0)) := by
    rw [hI, hs, List.length_cons, List.range_succ_eq_map]; rfl
  have hfrontD : (stages L est m1).unique_features_indices.headD [] =
      (List.range n0).filter
        (isUnique L (calculateMeanFeature (computeFeaturesAtAllScales est m1)) 0) := by
    rw [List.headD_eq_head?_getD, hfront]; rfl
  have hlenmask : ∀ mask ∈ (stages L est m1).unique_features_table, mask.length = n0 := by
    intro mask hmem
    rw [hT] at hmem
    obtain ⟨s, -, rfl⟩ := List.mem_map.mp hmem
    simp
  have hin : ∀ i ∈ (stages L est m1).unique_features_indices.headD [], i < n0 := by
    intro i hi
    rw [hfrontD] at hi
    exact List.mem_range.mp (List.mem_filter.mp hi).1
  have hn0 : (est.compute s0).points.length = n0 := hpts s0 (by rw [hs]; exact List.mem_cons_self _ _)
  have hmask0 : (stages L est m1).unique_features_table.head? =
      some ((List.range n0).map
        (isUnique L (calculateMeanFeature (computeFeaturesAtAllScales est m1)) 0)) := by
    rw [hT, hs, List.length_cons, List.range_succ_eq_map]; rfl
  have hsync : ∀ i, i ∈ (List.range n0).filter
        (isUnique L (calculateMeanFeature (computeFeaturesAtAllScales est m1)) 0) ↔
      ((List.range n0).map
        (isUnique L (calculateMeanFeature (computeFeaturesAtAllScales est m1)) 0))[i]? =
        some true := by
    intro i
    rw [List.mem_filter, List.mem_range, List.getElem?_map]
    by_cases hi : i < n0
    · rw [List.getElem?_range hi]
      simp [hi]
    · rw [List.getElem?_eq_none (by simpa using Nat.le_of_not_lt hi)]
      simp [hi]
  refine ⟨est.compute s0, _, _, hhead, hfront, hmask0, hn0, hlenmask, hsync, ?_⟩
  have hloop := persistentLoop_eq (stages L est m1).unique_features_table
    (stages L est m1).features_at_scale (est.compute s0)
    ((stages L est m1).unique_features_indices.headD [])
    (output_features.points, output_indices) hhead
    (by
      intro i hi s hslt
      rw [← hlenT] at hslt
      refine ⟨_, List.getElem?_eq_getElem hslt, ?_⟩
      rw [hlenmask _ (List.getElem_mem _)]
      exact hin i hi)
    (by intro i hi; rw [hn0]; exact hin i hi)
  have hpred : (fun i => (List.range (stages L est m1).features_at_scale.length).all
      fun s => ((stages L est m1).unique_features_table.getD s []).getD i false) =
      fun i => (stages L est m1).unique_features_table.all fun mask => mask[i]? == some true := by
    funext i
    rw [← hlenT, all_range_getD]
  rw [hpred] at hloop
  unfold determinePersistentFeatures
  rw [hpair]
  simp only [hes, hfront]
  rw [hfrontD] at hloop
  rw [hloop]
  simp only [persistentIndices, hfrontD]

theorem calculateMeanFeature_vectorized
    (m : MultiscaleFeaturePersistence F Hdr PointSource PointFeature) :
    (calculateMeanFeature m).features_at_scale_vectorized = m.features_at_scale_vectorized :=
  rfl

theorem calculateMeanFeature_features
    (m : MultiscaleFeaturePersistence F Hdr PointSource PointFeature) :
    (calculateMeanFeature m).features_at_scale = m.features_at_scale := rfl

theorem calculateMeanFeature_alpha
    (m : MultiscaleFeaturePersistence F Hdr PointSource PointFeature) :
    (calculateMeanFeature m).alpha_ = m.alpha_ := rfl

theorem calculateMeanFeature_metric
    (m : MultiscaleFeaturePersistence F Hdr PointSource PointFeature) :
    (calculateMeanFeature m).distance_metric_ = m.distance_metric_ := rfl

theorem calculateMeanFeature_scales
    (m : MultiscaleFeaturePersistence F Hdr PointSource PointFeature) :
    (calculateMeanFeature m).scale_values_ = m.scale_values_ := rfl

/-- After the stages there is one cloud, one list and one mask per scale
value. -/
theorem stages_length (L : LibM F) (est : FeatureEstimator F Hdr PointSource PointFeature)
    (m : MultiscaleFeaturePersistence F Hdr PointSource PointFeature) :
    (stages L est m).features_at_scale.length = m.scale_values_.length ∧
    (stages L est m).unique_features_indices.length = m.scale_values_.length ∧
    (stages L est m).unique_features_table.length = m.scale_values_.length := by
  rw [stages_eq]
  refine ⟨?_, by simp, by simp⟩
  show (calculateMeanFeature (computeFeaturesAtAllScales est m)).features_at_scale.length = _
  rw [calculateMeanFeature_features, computeFeaturesAtAllScales_eq]
  simp

theorem eq_singleton_of_head? {α : Type} (l : List α) (x : α) (hl : l.length = 1)
    (hh : l.head? = some x) : l = [x] := by
  match l, hl, hh with
  | [a], _, hh => simp only [List.head?_cons, Option.some.injEq] at hh; rw [hh]

/-- The run after a successful `initCompute`: the stages, the loop over the
front list, the bookkeeping of the output cloud. -/
theorem determinePersistentFeatures_unfold (L : LibM F)
    (m : MultiscaleFeaturePersistence F Hdr PointSource PointFeature)
    (est : FeatureEstimator F Hdr PointSource PointFeature)
    (output_features : PointCloud Hdr PointFeature) (output_indices : List Nat)
    (hinit : (initCompute m).1 = true) (hest : m.feature_estimator_ = some est) :
    determinePersistentFeatures L m output_features output_indices =
      (stages L est (initCompute m).2).unique_features_indices.head?.bind fun front =>
        (persistentLoop (stages L est (initCompute m).2).unique_features_table
          (stages L est (initCompute m).2).features_at_scale front
          (output_features.points, output_indices)).map fun out =>
            (stages L est (initCompute m).2,
              { header := est.getInputCloud.header
                points := out.1
                width := out.1.length
                height := 1
                is_dense := est.getInputCloud.is_dense },
              out.2) := by
  obtain ⟨-, -, -, h2⟩ := initCompute_true m hinit
  have hpair : initCompute m = (true, (initCompute m).2) := Prod.ext hinit rfl
  have hes : (initCompute m).2.feature_estimator_ = some est := by rw [h2]; exact hest
  unfold determinePersistentFeatures
  generalize (initCompute m).2 = m1 at *
  rw [hpair]
  simp only [hes]
  cases (stages L est m1).unique_features_indices.head? with
  | none => rfl
  | some front =>
    dsimp only [Option.bind]
    cases persistentLoop (stages L est m1).unique_features_table
      (stages L est m1).features_at_scale front (output_features.points, output_indices) with
    | none => rfl
    | some out => rfl

end Run

end pcl

/-! ## The claims -/

namespace pcl

section Claims

variable {F Hdr PointSource PointFeature : Type}
variable [Zero F] [Add F] [Sub F] [Mul F] [Div F] [Neg F] [NatCast F]
variable [LT F] [DecidableRel (fun a b : F => a < b)]
variable [Inhabited Hdr]

theorem map_some_filterMap {α β : Type} (f : α → Option β) (l : List α)
    (h : ∀ a ∈ l, (f a).isSome = true) : (l.filterMap f).map some = l.map f := by
  induction l with
  | nil => rfl
  | cons a t ih =>
    have ha := h a (List.mem_cons_self _ _)
    cases hfa : f a with
    | none => rw [hfa] at ha; cases ha
    | some b =>
      rw [List.filterMap_cons_some hfa, List.map_cons, List.map_cons, hfa,
        ih fun x hx => h x (List.mem_cons_of_mem _ hx)]

theorem persistentIndices_lt
    (m : MultiscaleFeaturePersistence F Hdr PointSource PointFeature) (mask0 : List Bool)
    (front : List Nat) (n0 : Nat)
    (hfront : m.unique_features_indices.head? = some front)
    (hsync : ∀ i, i ∈ front ↔ mask0[i]? = some true) (hlen : mask0.length = n0) :
    ∀ i ∈ persistentIndices m, i < n0 := by
  intro i hi
  unfold persistentIndices at hi
  rw [List.headD_eq_head?_getD, hfront] at hi
  have hmem : i ∈ front := (List.mem_filter.mp hi).1
  have h := (hsync i).mp hmem
  by_contra hge
  rw [List.getElem?_eq_none (by omega)] at h
  cases h

/-- C1: a run that passes `initCompute`, starts from empty outputs and gets
the same number of points from the estimator at every scale returns normally;
its output indices are the flagged-index list of the first scale restricted,
in the same order, to the indices whose flag is true in the mask of every
scale, and its k-th output descriptor is the first scale's descriptor at the
k-th output index.  The lists, masks and clouds are the members the stages
have left in the object. -/
theorem determinePersistentFeatures_all_scales (L : LibM F)
    (m : MultiscaleFeaturePersistence F Hdr PointSource PointFeature)
    (est : FeatureEstimator F Hdr PointSource PointFeature)
    (output_features : PointCloud Hdr PointFeature) (n0 : Nat)
    (hinit : (initCompute m).1 = true) (hest : m.feature_estimator_ = some est)
    (hempty : output_features.points = [])
    (hpts : ∀ s ∈ m.scale_values_, (est.compute s).points.length = n0) :
    ∃ out idx front front_cloud,
      determinePersistentFeatures L m output_features [] =
        some (stages L est (initCompute m).2, out, idx) ∧
      (stages L est (initCompute m).2).unique_features_indices.head? = some front ∧
      (stages L est (initCompute m).2).features_at_scale.head? = some front_cloud ∧
      idx = front.filter (fun i =>
        (stages L est (initCompute m).2).unique_features_table.all
          fun mask => mask[i]? == some true) ∧
      out.points.map some = idx.map fun i => front_cloud.points[i]? := by
  obtain ⟨front_cloud, front, mask0, hcloud, hfront, hmask0, hn0, hlen, hsync, hrun⟩ :=
    determinePersistentFeatures_eq L m est output_features [] n0 hinit hest hpts
  have hm0 : mask0.length = n0 := hlen mask0 (List.mem_of_mem_head? hmask0)
  have hlt := persistentIndices_lt _ mask0 front n0 hfront hsync hm0
  refine ⟨_, _, front, front_cloud, hrun, hfront, hcloud, ?_, ?_⟩
  · rw [List.nil_append]
    unfold persistentIndices
    rw [List.headD_eq_head?_getD, hfront]
    rfl
  · simp only [hempty, List.nil_append]
    apply map_some_filterMap
    intro i hi
    rw [List.getElem?_eq_getElem (by rw [hn0]; exact hlt i hi)]
    rfl

/-- Witness for C1 on the three-scale configuration. -/
theorem determinePersistentFeatures_all_scales_witness :
    ∃ out idx front front_cloud,
      determinePersistentFeatures libQ threeScales emptyOutput [] =
        some (stages libQ (estimatorOf [11, 17] [9, 3] [15, 5]) (initCompute threeScales).2,
          out, idx) ∧
      (stages libQ (estimatorOf [11, 17] [9, 3] [15, 5])
        (initCompute threeScales).2).unique_features_indices.head? = some front ∧
      (stages libQ (estimatorOf [11, 17] [9, 3] [15, 5])
        (initCompute threeScales).2).features_at_scale.head? = some front_cloud ∧
      idx = front.filter (fun i =>
        (stages libQ (estimatorOf [11, 17] [9, 3] [15, 5])
          (initCompute threeScales).2).unique_features_table.all
          fun mask => mask[i]? == some true) ∧
      out.points.map some = idx.map fun i => front_cloud.points[i]? :=
  determinePersistentFeatures_all_scales libQ threeScales (estimatorOf [11, 17] [9, 3] [15, 5])
    emptyOutput 2 rfl rfl rfl (by
      intro s _
      simp only [estimatorOf, cloudOf]
      split_ifs <;> rfl)

/-- The evaluation of the three-scale configuration: the pooled mean is 10;
index 1 is flagged at scales 0 and 1 and not at scale 2. -/
theorem threeScales_stages :
    (stages libQ (estimatorOf [11, 17] [9, 3] [15, 5])
        (initCompute threeScales).2).unique_features_table =
      [[false, true], [false, true], [false, false]] := by
  have hmean : (calculateMeanFeature (computeFeaturesAtAllScales
      (estimatorOf [11, 17] [9, 3] [15, 5]) (initCompute threeScales).2)).mean_feature =
      [10] := by
    rw [calculateMeanFeature_eq _ (by
      simp [initCompute, threeScales, configOf, computeFeaturesAtAllScales_eq, resize]),
      computeFeaturesAtAllScales_eq]
    simp [initCompute, threeScales, configOf, estimatorOf, cloudOf, vectorizeCloud,
      List.range_succ]
    norm_num
  have h25 : sqrtQ 25 = 5 := by
    have h := sqrtQ_sq 5
    norm_num at h
    exact h
  rw [stages_eq]
  simp only [isUnique, hmean, calculateMeanFeature_vectorized, calculateMeanFeature_alpha,
    calculateMeanFeature_metric]
  simp [computeFeaturesAtAllScales_eq, initCompute, threeScales, configOf, estimatorOf, cloudOf,
    vectorizeCloud, List.range_succ, diffVector, standardDev, distanceBetweenFeatures, libQ]
  norm_num [h25]

/-- C4: in a run over scales of equal point count, an index whose flag is
false in the mask of at least one scale is not among the indices the run
appends to the output indices (the masks are those the stages have left in
the object). -/
theorem determinePersistentFeatures_excludes (L : LibM F)
    (m : MultiscaleFeaturePersistence F Hdr PointSource PointFeature)
    (est : FeatureEstimator F Hdr PointSource PointFeature)
    (output_features : PointCloud Hdr PointFeature) (output_indices : List Nat) (n0 : Nat)
    (hinit : (initCompute m).1 = true) (hest : m.feature_estimator_ = some est)
    (hpts : ∀ s ∈ m.scale_values_, (est.compute s).points.length = n0) :
    ∃ out appended,
      determinePersistentFeatures L m output_features output_indices =
        some (stages L est (initCompute m).2, out, output_indices ++ appended) ∧
      ∀ i, (∃ mask ∈ (stages L est (initCompute m).2).unique_features_table,
          mask[i]? = some false) → i ∉ appended := by
  obtain ⟨front_cloud, front, mask0, -, -, -, -, -, -, hrun⟩ :=
    determinePersistentFeatures_eq L m est output_features output_indices n0 hinit hest hpts
  refine ⟨_, _, hrun, ?_⟩
  rintro i ⟨mask, hmem, hfalse⟩ hi
  unfold persistentIndices at hi
  have hall := (List.mem_filter.mp hi).2
  have := List.all_eq_true.mp hall mask hmem
  rw [hfalse] at this
  exact absurd this (by decide)

/-- Witness for C4: with three scales, index 1 is flagged at scales 0 and 1
but not at scale 2, and it is not among the appended indices. -/
theorem determinePersistentFeatures_excludes_witness :
    (stages libQ (estimatorOf [11, 17] [9, 3] [15, 5])
        (initCompute threeScales).2).unique_features_table =
      [[false, true], [false, true], [false, false]] ∧
    ∃ out appended,
      determinePersistentFeatures libQ threeScales emptyOutput [] =
        some (stages libQ (estimatorOf [11, 17] [9, 3] [15, 5]) (initCompute threeScales).2,
          out, [] ++ appended) ∧
      1 ∉ appended := by
  obtain ⟨out, appended, hrun, hex⟩ :=
    determinePersistentFeatures_excludes libQ threeScales (estimatorOf [11, 17] [9, 3] [15, 5])
      emptyOutput [] 2 rfl rfl (by
        intro s _
        simp only [estimatorOf, cloudOf]
        split_ifs <;> rfl)
  refine ⟨threeScales_stages, out, appended, hrun, hex 1 ?_⟩
  rw [threeScales_stages]
  exact ⟨[false, false], by simp, rfl⟩

/-- C5: with exactly one scale and empty outputs, the run returns the
flagged-index list of that scale as it is, and the scale's descriptors at
those indices. -/
theorem determinePersistentFeatures_single_scale (L : LibM F)
    (m : MultiscaleFeaturePersistence F Hdr PointSource PointFeature)
    (est : FeatureEstimator F Hdr PointSource PointFeature)
    (output_features : PointCloud Hdr PointFeature) (scale : F)
    (hbase : m.base_initCompute = true) (hest : m.feature_estimator_ = some est)
    (hone : m.scale_values_ = [scale]) (hempty : output_features.points = []) :
    ∃ out flagged cloud,
      determinePersistentFeatures L m output_features [] =
        some (stages L est (initCompute m).2, out, flagged) ∧
      (stages L est (initCompute m).2).unique_features_indices = [flagged] ∧
      (stages L est (initCompute m).2).features_at_scale = [cloud] ∧
      out.points.map some = flagged.map fun i => cloud.points[i]? := by
  have hinit : (initCompute m).1 = true := by
    simp [initCompute, hbase, hest, hone]
  have hpts : ∀ s ∈ m.scale_values_,
      (est.compute s).points.length = (est.compute scale).points.length := by
    intro s hs
    rw [hone, List.mem_singleton] at hs
    rw [hs]
  obtain ⟨front_cloud, front, mask0, hcloud, hfront, hmask0, hn0, hlen, hsync, hrun⟩ :=
    determinePersistentFeatures_eq L m est output_features [] _ hinit hest hpts
  have hsc : (initCompute m).2.scale_values_ = [scale] := by
    rw [(initCompute_true m hinit).2.2.2]; exact hone
  obtain ⟨hl1, hl2, hl3⟩ := stages_length L est (initCompute m).2
  rw [hsc] at hl1 hl2 hl3
  have hF := eq_singleton_of_head? _ _ hl1 hcloud
  have hI := eq_singleton_of_head? _ _ hl2 hfront
  have hT := eq_singleton_of_head? _ _ hl3 hmask0
  have hpers : persistentIndices (stages L est (initCompute m).2) = front := by
    unfold persistentIndices
    rw [hI, hT]
    apply List.filter_eq_self.mpr
    intro i hi
    simp only [List.headD_cons] at hi
    simp [(hsync i).mp hi]
  rw [hpers, List.nil_append] at hrun
  have hm0 : mask0.length = (est.compute scale).points.length :=
    hlen mask0 (List.mem_of_mem_head? hmask0)
  refine ⟨_, front, front_cloud, hrun, hI, hF, ?_⟩
  · simp only [hempty, List.nil_append]
    apply map_some_filterMap
    intro i hi
    have h := (hsync i).mp hi
    have hlt : i < mask0.length := by
      by_contra hge
      rw [List.getElem?_eq_none (by omega)] at h
      cases h
    rw [List.getElem?_eq_getElem (by rw [hn0, ← hm0]; exact hlt)]
    rfl

/-- Witness for C5: one scale with three points. -/
theorem determinePersistentFeatures_single_scale_witness :
    ∃ out flagged cloud,
      determinePersistentFeatures libQ (configOf (estimatorOf [12, 12, 20] [] []) [1] 1)
          emptyOutput [] =
        some (stages libQ (estimatorOf [12, 12, 20] [] [])
          (initCompute (configOf (estimatorOf [12, 12, 20] [] []) [1] 1)).2, out, flagged) ∧
      (stages libQ (estimatorOf [12, 12, 20] [] [])
        (initCompute (configOf (estimatorOf [12, 12, 20] [] []) [1] 1)).2).unique_features_indices =
        [flagged] ∧
      (stages libQ (estimatorOf [12, 12, 20] [] [])
        (initCompute (configOf (estimatorOf [12, 12, 20] [] []) [1] 1)).2).features_at_scale =
        [cloud] ∧
      out.points.map some = flagged.map fun i => cloud.points[i]? :=
  determinePersistentFeatures_single_scale libQ (configOf (estimatorOf [12, 12, 20] [] []) [1] 1)
    (estimatorOf [12, 12, 20] [] []) emptyOutput 1 rfl rfl rfl rfl

/-- C6: when the base-class check fails, no estimator is set or the scale
list is empty, `initCompute` returns false and the run returns at once: the
object, the output cloud (points, width, height, is_dense, header) and the
output indices are exactly what they were on entry. -/
theorem determinePersistentFeatures_not_initialized (L : LibM F)
    (m : MultiscaleFeaturePersistence F Hdr PointSource PointFeature)
    (output_features : PointCloud Hdr PointFeature) (output_indices : List Nat)
    (h : m.base_initCompute = false ∨ m.feature_estimator_ = none ∨ m.scale_values_ = []) :
    (initCompute m).1 = false ∧
      determinePersistentFeatures L m output_features output_indices =
        some (m, output_features, output_indices) := by
  have h1 : (initCompute m).1 = false := (initCompute_false m).mpr h
  have h2 : (initCompute m).2 = m := by
    unfold initCompute at h1 ⊢
    split_ifs at h1 ⊢ <;> rfl
  refine ⟨h1, ?_⟩
  have hpair : initCompute m = (false, m) := Prod.ext h1 h2
  unfold determinePersistentFeatures
  rw [hpair]

/-- Witness for C6: an object without scale values, and output arguments that
are not empty. -/
theorem determinePersistentFeatures_not_initialized_witness :
    (initCompute (configOf (estimatorOf [1] [2] [3]) [] 1)).1 = false ∧
      determinePersistentFeatures libQ (configOf (estimatorOf [1] [2] [3]) [] 1)
          (cloudOf [4, 5]) [0, 1] =
        some (configOf (estimatorOf [1] [2] [3]) [] 1, cloudOf [4, 5], [0, 1]) :=
  determinePersistentFeatures_not_initialized libQ (configOf (estimatorOf [1] [2] [3]) [] 1)
    (cloudOf [4, 5]) [0, 1] (Or.inr (Or.inr rfl))

/-- The evaluation of the configuration with mismatched point counts: the
front list is `[2]`, index 2 is not flagged at scale 1, and the mask of scale
2 has two entries only. -/
theorem mismatchedScales_stages :
    (stages libQ (estimatorOf [11, 11, 15] [5, 9, 9] [11, 9])
        (initCompute mismatchedScales).2).unique_features_indices = [[2], [0], []] ∧
    (stages libQ (estimatorOf [11, 11, 15] [5, 9, 9] [11, 9])
        (initCompute mismatchedScales).2).unique_features_table =
      [[false, false, true], [true, false, false], [false, false]] ∧
    (stages libQ (estimatorOf [11, 11, 15] [5, 9, 9] [11, 9])
        (initCompute mismatchedScales).2).features_at_scale =
      [cloudOf [11, 11, 15], cloudOf [5, 9, 9], cloudOf [11, 9]] := by
  have hmean : (calculateMeanFeature (computeFeaturesAtAllScales
      (estimatorOf [11, 11, 15] [5, 9, 9] [11, 9]) (initCompute mismatchedScales).2)).mean_feature =
      [10] := by
    rw [calculateMeanFeature_eq _ (by
      simp [initCompute, mismatchedScales, configOf, computeFeaturesAtAllScales_eq, resize]),
      computeFeaturesAtAllScales_eq]
    simp [initCompute, mismatchedScales, configOf, estimatorOf, cloudOf, vectorizeCloud,
      List.range_succ]
    norm_num
  have h9 : sqrtQ 9 = 3 := by
    have h := sqrtQ_sq 3
    norm_num at h
    exact h
  have h1 : sqrtQ 1 = 1 := by
    have h := sqrtQ_sq 1
    norm_num at h
    exact h
  rw [stages_eq]
  simp only [isUnique, hmean, calculateMeanFeature_vectorized, calculateMeanFeature_alpha,
    calculateMeanFeature_metric, calculateMeanFeature_features]
  simp [computeFeaturesAtAllScales_eq, initCompute, mismatchedScales, configOf, estimatorOf,
    cloudOf, vectorizeCloud, List.range_succ, diffVector, standardDev, distanceBetweenFeatures,
    libQ, List.filter]
  norm_num [h9, h1]

/-- C7, counterexample: index 2 of the front list is beyond the mask of scale
2 (two entries), yet the run returns a normal, empty result: scale 1 has the
index unflagged, `&&` skips the read at scale 2, and nothing is reported. -/
theorem determinePersistentFeatures_mismatch_unreported :
    (stages libQ (estimatorOf [11, 11, 15] [5, 9, 9] [11, 9])
        (initCompute mismatchedScales).2).unique_features_indices.head? = some [2] ∧
    (stages libQ (estimatorOf [11, 11, 15] [5, 9, 9] [11, 9])
        (initCompute mismatchedScales).2).unique_features_table[2]? = some [false, false] ∧
    determinePersistentFeatures libQ mismatchedScales emptyOutput [] =
      some (stages libQ (estimatorOf [11, 11, 15] [5, 9, 9] [11, 9])
          (initCompute mismatchedScales).2,
        { header := 7, points := [], width := 0, height := 1, is_dense := false }, []) := by
  obtain ⟨hI, hT, hF⟩ := mismatchedScales_stages
  refine ⟨by rw [hI]; rfl, by rw [hT]; rfl, ?_⟩
  rw [determinePersistentFeatures_unfold libQ mismatchedScales
    (estimatorOf [11, 11, 15] [5, 9, 9] [11, 9]) emptyOutput [] rfl rfl, hI, hT, hF]
  simp [persistentLoop, presentInAll, List.range_succ, emptyOutput, estimatorOf]

/-- The scales in index order, split at scale `s`. -/
theorem range_split (n s : Nat) (hs : s < n) :
    List.range n = List.range s ++ s :: List.range' (s + 1) (n - s - 1) := by
  obtain ⟨k, rfl⟩ : ∃ k, n = (k + 1) + s := ⟨n - s - 1, by omega⟩
  have hk : (k + 1) + s - s - 1 = k := by omega
  rw [hk, List.range_eq_range', List.range_eq_range', ← List.range'_append_1 0 s (k + 1),
    Nat.zero_add, List.range'_succ]

/-- C7, amended: when an index of the front list is at or beyond the length
of the mask of scale `s` and is flagged at every scale before `s`, the read
`unique_features_table[s][i]` is reached and is out of range: the run has no
normal result.  Nothing is checked and nothing is reported. -/
theorem determinePersistentFeatures_out_of_range (L : LibM F)
    (m : MultiscaleFeaturePersistence F Hdr PointSource PointFeature)
    (est : FeatureEstimator F Hdr PointSource PointFeature)
    (output_features : PointCloud Hdr PointFeature) (output_indices : List Nat)
    (front : List Nat) (mask : List Bool) (i s : Nat)
    (hinit : (initCompute m).1 = true) (hest : m.feature_estimator_ = some est)
    (hfront : (stages L est (initCompute m).2).unique_features_indices.head? = some front)
    (hi : i ∈ front)
    (hs : s < (stages L est (initCompute m).2).features_at_scale.length)
    (hmask : (stages L est (initCompute m).2).unique_features_table[s]? = some mask)
    (hshort : mask.length ≤ i)
    (hpre : ∀ t < s, ∃ mk,
      (stages L est (initCompute m).2).unique_features_table[t]? = some mk ∧
        mk[i]? = some true) :
    determinePersistentFeatures L m output_features output_indices = none := by
  rw [determinePersistentFeatures_unfold L m est output_features output_indices hinit hest, hfront]
  have hnone : presentInAll (stages L est (initCompute m).2).unique_features_table i
      (List.range (stages L est (initCompute m).2).features_at_scale.length) true = none := by
    rw [range_split _ s hs]
    exact presentInAll_none _ i _ _ s mask
      (fun t ht => hpre t (List.mem_range.mp ht)) hmask hshort
  show Option.map _ (persistentLoop _ _ front _) = none
  rw [persistentLoop_none _ _ front _ i hi hnone]
  rfl

/-- The evaluation of the two-scale configuration whose second scale is
shorter: index 2 is flagged at scale 0, and the mask of scale 1 has two
entries. -/
theorem shortSecondScale_stages :
    (stages libQ (estimatorOf [12, 12, 20] [3, 3] [])
        (initCompute shortSecondScale).2).unique_features_indices = [[2], []] ∧
    (stages libQ (estimatorOf [12, 12, 20] [3, 3] [])
        (initCompute shortSecondScale).2).unique_features_table =
      [[false, false, true], [false, false]] := by
  have hmean : (calculateMeanFeature (computeFeaturesAtAllScales
      (estimatorOf [12, 12, 20] [3, 3] []) (initCompute shortSecondScale).2)).mean_feature =
      [10] := by
    rw [calculateMeanFeature_eq _ (by
      simp [initCompute, shortSecondScale, configOf, computeFeaturesAtAllScales_eq, resize]),
      computeFeaturesAtAllScales_eq]
    simp [initCompute, shortSecondScale, configOf, estimatorOf, cloudOf, vectorizeCloud,
      List.range_succ]
    norm_num
  have h36 : sqrtQ 36 = 6 := by
    have h := sqrtQ_sq 6
    norm_num at h
    exact h
  have h49 : sqrtQ 49 = 7 := by
    have h := sqrtQ_sq 7
    norm_num at h
    exact h
  rw [stages_eq]
  simp only [isUnique, hmean, calculateMeanFeature_vectorized, calculateMeanFeature_alpha,
    calculateMeanFeature_metric, calculateMeanFeature_features]
  simp [computeFeaturesAtAllScales_eq, initCompute, shortSecondScale, configOf, estimatorOf,
    cloudOf, vectorizeCloud, List.range_succ, diffVector, standardDev, distanceBetweenFeatures,
    libQ, List.filter]
  norm_num [h36, h49]

/-- Witness for the amended C7: index 2 is flagged at scale 0 (three points)
and scale 1 has two points. -/
theorem determinePersistentFeatures_out_of_range_witness :
    (stages libQ (estimatorOf [12, 12, 20] [3, 3] [])
        (initCompute shortSecondScale).2).unique_features_indices.head? = some [2] ∧
    (stages libQ (estimatorOf [12, 12, 20] [3, 3] [])
        (initCompute shortSecondScale).2).unique_features_table[1]? = some [false, false] ∧
    determinePersistentFeatures libQ shortSecondScale emptyOutput [] = none := by
  obtain ⟨hI, hT⟩ := shortSecondScale_stages
  have hfront : (stages libQ (estimatorOf [12, 12, 20] [3, 3] [])
      (initCompute shortSecondScale).2).unique_features_indices.head? = some [2] := by
    rw [hI]; rfl
  have hmask : (stages libQ (estimatorOf [12, 12, 20] [3, 3] [])
      (initCompute shortSecondScale).2).unique_features_table[1]? = some [false, false] := by
    rw [hT]; rfl
  refine ⟨hfront, hmask, ?_⟩
  exact determinePersistentFeatures_out_of_range libQ shortSecondScale
    (estimatorOf [12, 12, 20] [3, 3] []) emptyOutput [] [2] [false, false] 2 1 rfl rfl
    hfront (List.mem_singleton.mpr rfl)
    (by rw [(stages_length _ _ _).1]; decide)
    hmask (by decide)
    (by
      intro t ht
      have ht0 : t = 0 := by omega
      subst ht0
      exact ⟨[false, false, true], by rw [hT]; rfl, rfl⟩)

/-- The evaluation of the configuration whose estimator yields no descriptor:
one empty cloud, one empty vector set, one empty list and one empty mask. -/
theorem noPoints_stages :
    (stages libQ (estimatorOf [] [] []) (initCompute noPoints).2).features_at_scale =
      [cloudOf []] ∧
    (stages libQ (estimatorOf [] [] [])
      (initCompute noPoints).2).features_at_scale_vectorized = [[]] ∧
    (stages libQ (estimatorOf [] [] []) (initCompute noPoints).2).unique_features_indices =
      [[]] ∧
    (stages libQ (estimatorOf [] [] []) (initCompute noPoints).2).unique_features_table =
      [[]] := by
  rw [stages_eq]
  simp [calculateMeanFeature_features, calculateMeanFeature_vectorized,
    computeFeaturesAtAllScales_eq, initCompute, noPoints, configOf, estimatorOf, vectorizeCloud,
    cloudOf, List.range_succ]

/-- C8, counterexample: the single scale yields no descriptor, so the total
number of (scale, point) pairs is zero; `initCompute` succeeds all the same,
the mean is divided by the zero `normalization_factor`, and the run returns
a normal, empty result with the bookkeeping done. -/
theorem determinePersistentFeatures_no_points_not_aborted :
    ((stages libQ (estimatorOf [] [] []) (initCompute noPoints).2).features_at_scale_vectorized.map
        List.length).sum = 0 ∧
    (initCompute noPoints).1 = true ∧
    determinePersistentFeatures libQ noPoints emptyOutput [] =
      some (stages libQ (estimatorOf [] [] []) (initCompute noPoints).2,
        { header := 7, points := [], width := 0, height := 1, is_dense := false }, []) := by
  obtain ⟨hF, hV, hI, hT⟩ := noPoints_stages
  refine ⟨by rw [hV]; rfl, rfl, ?_⟩
  rw [determinePersistentFeatures_unfold libQ noPoints (estimatorOf [] [] []) emptyOutput []
    rfl rfl, hI, hT, hF]
  simp [persistentLoop, emptyOutput, estimatorOf]

/-- C8, amended: when the estimator yields no descriptor at any scale, the run
is not aborted.  It returns normally: no point and no index is appended, and
header, is_dense, width and height of the output cloud are set. -/
theorem determinePersistentFeatures_no_points (L : LibM F)
    (m : MultiscaleFeaturePersistence F Hdr PointSource PointFeature)
    (est : FeatureEstimator F Hdr PointSource PointFeature)
    (output_features : PointCloud Hdr PointFeature) (output_indices : List Nat)
    (hinit : (initCompute m).1 = true) (hest : m.feature_estimator_ = some est)
    (hzero : ∀ s ∈ m.scale_values_, (est.compute s).points = []) :
    determinePersistentFeatures L m output_features output_indices =
      some (stages L est (initCompute m).2,
        { header := est.getInputCloud.header
          points := output_features.points
          width := output_features.points.length
          height := 1
          is_dense := est.getInputCloud.is_dense },
        output_indices) := by
  obtain ⟨front_cloud, front, mask0, -, hfront, hmask0, -, hlen, hsync, hrun⟩ :=
    determinePersistentFeatures_eq L m est output_features output_indices 0 hinit hest
      (fun s hs => by rw [hzero s hs]; rfl)
  have hm0 : mask0.length = 0 := hlen mask0 (List.mem_of_mem_head? hmask0)
  have hlt := persistentIndices_lt _ mask0 front 0 hfront hsync hm0
  have hnil : persistentIndices (stages L est (initCompute m).2) = [] := by
    apply List.eq_nil_iff_forall_not_mem.mpr
    intro i hi
    exact absurd (hlt i hi) (Nat.not_lt_zero i)
  rw [hrun, hnil]
  simp

/-- Witness for the amended C8: one scale, an estimator without points, and
output arguments that are not empty. -/
theorem determinePersistentFeatures_no_points_witness :
    determinePersistentFeatures libQ noPoints (cloudOf [4, 5]) [0, 1] =
      some (stages libQ (estimatorOf [] [] []) (initCompute noPoints).2,
        { header := 7, points := [4, 5], width := 2, height := 1, is_dense := false },
        [0, 1]) :=
  determinePersistentFeatures_no_points libQ noPoints (estimatorOf [] [] []) (cloudOf [4, 5])
    [0, 1] rfl rfl (by
      intro s _
      simp only [estimatorOf, cloudOf]
      split_ifs <;> rfl)

/-- C9, counterexample: the output cloud holds two points on entry and no
point is persistent; the run leaves `width = 2`, not the number of surviving
points, which is zero. -/
theorem determinePersistentFeatures_width_counts_entry_points :
    determinePersistentFeatures libQ noPoints (cloudOf [4, 5]) [] =
      some (stages libQ (estimatorOf [] [] []) (initCompute noPoints).2,
        { header := 7, points := [4, 5], width := 2, height := 1, is_dense := false }, []) := by
  obtain ⟨hF, -, hI, hT⟩ := noPoints_stages
  rw [determinePersistentFeatures_unfold libQ noPoints (estimatorOf [] [] []) (cloudOf [4, 5]) []
    rfl rfl, hI, hT, hF]
  simp [persistentLoop, cloudOf, estimatorOf]

/-- C9, amended: after every run that passes `initCompute` and returns, the
output cloud has height 1, the header and is_dense flag of the estimator's
input cloud, and a width equal to its number of points, which is the number
of points it held on entry plus the number of indices the run has appended
(so the number of surviving points when the cloud was empty on entry, zero
included). -/
theorem determinePersistentFeatures_bookkeeping (L : LibM F)
    (m m2 : MultiscaleFeaturePersistence F Hdr PointSource PointFeature)
    (est : FeatureEstimator F Hdr PointSource PointFeature)
    (output_features out : PointCloud Hdr PointFeature) (output_indices idx : List Nat)
    (hinit : (initCompute m).1 = true) (hest : m.feature_estimator_ = some est)
    (hrun : determinePersistentFeatures L m output_features output_indices =
      some (m2, out, idx)) :
    out.height = 1 ∧ out.header = est.getInputCloud.header ∧
      out.is_dense = est.getInputCloud.is_dense ∧ out.width = out.points.length ∧
      ∃ appended, idx = output_indices ++ appended ∧
        out.width = output_features.points.length + appended.length := by
  rw [determinePersistentFeatures_unfold L m est output_features output_indices hinit hest]
    at hrun
  cases hfront : (stages L est (initCompute m).2).unique_features_indices.head? with
  | none => rw [hfront] at hrun; cases hrun
  | some front =>
    rw [hfront] at hrun
    change Option.map _ (persistentLoop _ _ front _) = _ at hrun
    cases hloop : persistentLoop (stages L est (initCompute m).2).unique_features_table
        (stages L est (initCompute m).2).features_at_scale front
        (output_features.points, output_indices) with
    | none => rw [hloop] at hrun; cases hrun
    | some res =>
      rw [hloop] at hrun
      obtain ⟨h1, pts, h2, h3⟩ := persistentLoop_some _ _ _ _ _ hloop
      simp only [Option.map_some', Option.some.injEq, Prod.mk.injEq] at hrun
      obtain ⟨-, hout, hidx⟩ := hrun
      subst hout
      subst hidx
      refine ⟨rfl, rfl, rfl, rfl, _, h1, ?_⟩
      simp only [h2, List.length_append, h3]

/-- The evaluation of the two-scale configuration: index 1 is flagged at both
scales.  Started on an output cloud that holds two points and on one output
index, the run appends the point 17 and the index 1. -/
theorem twoScales_run :
    (stages libQ (estimatorOf [11, 17] [9, 3] [])
        (initCompute twoScales).2).unique_features_table = [[false, true], [false, true]] ∧
    determinePersistentFeatures libQ twoScales (cloudOf [4, 5]) [0] =
      some (stages libQ (estimatorOf [11, 17] [9, 3] []) (initCompute twoScales).2,
        { header := 7, points := [4, 5, 17], width := 3, height := 1, is_dense := false },
        [0, 1]) := by
  have hmean : (calculateMeanFeature (computeFeaturesAtAllScales
      (estimatorOf [11, 17] [9, 3] []) (initCompute twoScales).2)).mean_feature = [10] := by
    rw [calculateMeanFeature_eq _ (by
      simp [initCompute, twoScales, configOf, computeFeaturesAtAllScales_eq, resize]),
      computeFeaturesAtAllScales_eq]
    simp [initCompute, twoScales, configOf, estimatorOf, cloudOf, vectorizeCloud,
      List.range_succ]
    norm_num
  have h25 : sqrtQ 25 = 5 := by
    have h := sqrtQ_sq 5
    norm_num at h
    exact h
  have hst : (stages libQ (estimatorOf [11, 17] [9, 3] [])
        (initCompute twoScales).2).unique_features_indices = [[1], [1]] ∧
      (stages libQ (estimatorOf [11, 17] [9, 3] [])
        (initCompute twoScales).2).unique_features_table = [[false, true], [false, true]] ∧
      (stages libQ (estimatorOf [11, 17] [9, 3] [])
        (initCompute twoScales).2).features_at_scale = [cloudOf [11, 17], cloudOf [9, 3]] := by
    rw [stages_eq]
    simp only [isUnique, hmean, calculateMeanFeature_vectorized, calculateMeanFeature_alpha,
      calculateMeanFeature_metric, calculateMeanFeature_features]
    simp [computeFeaturesAtAllScales_eq, initCompute, twoScales, configOf, estimatorOf,
      cloudOf, vectorizeCloud, List.range_succ, diffVector, standardDev, distanceBetweenFeatures,
      libQ, List.filter]
    norm_num [h25]
  obtain ⟨hI, hT, hF⟩ := hst
  refine ⟨hT, ?_⟩
  rw [determinePersistentFeatures_unfold libQ twoScales (estimatorOf [11, 17] [9, 3] [])
    (cloudOf [4, 5]) [0] rfl rfl, hI, hT, hF]
  simp [persistentLoop, presentInAll, List.range_succ, cloudOf, estimatorOf]

/-- Witness for the amended C9: two points on entry, one surviving point, and
the width is three. -/
theorem determinePersistentFeatures_bookkeeping_witness :
    determinePersistentFeatures libQ twoScales (cloudOf [4, 5]) [0] =
      some (stages libQ (estimatorOf [11, 17] [9, 3] []) (initCompute twoScales).2,
        { header := 7, points := [4, 5, 17], width := 3, height := 1, is_dense := false },
        [0, 1]) ∧
    ((1 : Nat) = 1 ∧ (7 : Nat) = (estimatorOf [11, 17] [9, 3] []).getInputCloud.header ∧
      false = (estimatorOf [11, 17] [9, 3] []).getInputCloud.is_dense ∧
      3 = [(4 : ℚ), 5, 17].length ∧
      ∃ appended, [0, 1] = [0] ++ appended ∧
        3 = (cloudOf [4, 5]).points.length + appended.length) :=
  ⟨twoScales_run.2,
    determinePersistentFeatures_bookkeeping libQ twoScales _ (estimatorOf [11, 17] [9, 3] [])
      (cloudOf [4, 5]) _ [0] [0, 1] rfl rfl twoScales_run.2⟩

end Claims

end pcl

/-! ## Exact arithmetic -/

namespace pcl

section Exact

variable {F Hdr PointSource PointFeature : Type} [LinearOrderedField F] [Inhabited Hdr]

/-- The members of the two-scale configuration before
`extractUniqueFeatures`. -/
theorem twoScalesMean_eq :
    twoScalesMean.mean_feature = [10] ∧
    twoScalesMean.features_at_scale_vectorized = [[[11], [17]], [[9], [3]]] ∧
    twoScalesMean.features_at_scale = [cloudOf [11, 17], cloudOf [9, 3]] ∧
    twoScalesMean.scale_values_ = [1, 2] ∧ twoScalesMean.alpha_ = 1 ∧
    twoScalesMean.distance_metric_ = DistanceMetric.MANHATTAN := by
  unfold twoScalesMean
  refine ⟨?_, ?_, ?_, ?_, ?_, ?_⟩
  · rw [calculateMeanFeature_eq _ (by
      simp [initCompute, twoScales, configOf, computeFeaturesAtAllScales_eq, resize]),
      computeFeaturesAtAllScales_eq]
    simp [initCompute, twoScales, configOf, estimatorOf, cloudOf, vectorizeCloud,
      List.range_succ]
    norm_num
  · rw [calculateMeanFeature_vectorized, computeFeaturesAtAllScales_eq]
    simp [initCompute, twoScales, configOf, estimatorOf, cloudOf, vectorizeCloud,
      List.range_succ]
  · rw [calculateMeanFeature_features, computeFeaturesAtAllScales_eq]
    simp [initCompute, twoScales, configOf, estimatorOf, cloudOf]
  · rw [calculateMeanFeature_scales, computeFeaturesAtAllScales_eq]
    rfl
  · rw [calculateMeanFeature_alpha, computeFeaturesAtAllScales_eq]
    rfl
  · rw [calculateMeanFeature_metric, computeFeaturesAtAllScales_eq]
    rfl

/-- Changing `alpha_` changes neither the clouds, nor the vectors, nor the
mean: the object before `extractUniqueFeatures` differs in `alpha_` only. -/
theorem stages_alpha (L : LibM F) (est : FeatureEstimator F Hdr PointSource PointFeature)
    (m : MultiscaleFeaturePersistence F Hdr PointSource PointFeature) (a : F) :
    (initCompute { m with alpha_ := a }).1 = (initCompute m).1 ∧
    stages L est (initCompute { m with alpha_ := a }).2 =
      extractUniqueFeatures L
        { calculateMeanFeature (computeFeaturesAtAllScales est (initCompute m).2) with
          alpha_ := a } := by
  have h1 : initCompute { m with alpha_ := a } =
      ((initCompute m).1, { (initCompute m).2 with alpha_ := a }) := by
    unfold initCompute
    simp only
    split_ifs <;> rfl
  rw [h1]
  refine ⟨rfl, ?_⟩
  unfold stages
  simp only
  rw [computeFeaturesAtAllScales_eq, computeFeaturesAtAllScales_eq]
  rfl

/-- With a square root that is never negative, a point that passes the test
with the larger multiplier passes it with the smaller one. -/
theorem isUnique_alpha_mono (L : LibM F) (hsqrt : ∀ x, 0 ≤ L.sqrt x)
    (m : MultiscaleFeaturePersistence F Hdr PointSource PointFeature) (a1 a2 : F)
    (h12 : a1 ≤ a2) (s p : Nat) (h : isUnique L { m with alpha_ := a2 } s p = true) :
    isUnique L { m with alpha_ := a1 } s p = true := by
  unfold isUnique at h ⊢
  simp only [decide_eq_true_eq] at h ⊢
  have hsd : 0 ≤ standardDev L m.distance_metric_ m.mean_feature
      (m.features_at_scale_vectorized.getD s []) := hsqrt _
  exact lt_of_le_of_lt (mul_le_mul_of_nonneg_right h12 hsd) h

/-- The masks and lists of `extractUniqueFeatures` for two multipliers
`a1 ≤ a2`: a true flag for `a2` is a true flag for `a1`, and each list for
`a2` is a sublist of the list for `a1`. -/
theorem extractUniqueFeatures_alpha_mono (L : LibM F) (hsqrt : ∀ x, 0 ≤ L.sqrt x)
    (m : MultiscaleFeaturePersistence F Hdr PointSource PointFeature) (a1 a2 : F)
    (h12 : a1 ≤ a2)
    (hlen : m.features_at_scale_vectorized.length = m.scale_values_.length) :
    (∀ (s p : Nat) (mask2 : List Bool),
      (extractUniqueFeatures L { m with alpha_ := a2 }).unique_features_table[s]? = some mask2 →
      mask2[p]? = some true →
      ∃ mask1,
        (extractUniqueFeatures L { m with alpha_ := a1 }).unique_features_table[s]? =
          some mask1 ∧ mask1[p]? = some true) ∧
    (∀ (s : Nat) (list2 : List Nat),
      (extractUniqueFeatures L { m with alpha_ := a2 }).unique_features_indices[s]? =
        some list2 →
      ∃ list1,
        (extractUniqueFeatures L { m with alpha_ := a1 }).unique_features_indices[s]? =
          some list1 ∧ list2.Sublist list1) := by
  rw [extractUniqueFeatures_eq L { m with alpha_ := a2 } hlen,
    extractUniqueFeatures_eq L { m with alpha_ := a1 } hlen]
  simp only [uniqueAtScale_eq]
  constructor
  · intro s p mask2 hs hp
    rw [List.getElem?_map] at hs ⊢
    cases hr : (List.range m.scale_values_.length)[s]? with
    | none => rw [hr] at hs; cases hs
    | some i =>
      rw [hr] at hs
      simp only [Option.map_some', Option.some.injEq] at hs
      subst hs
      refine ⟨_, rfl, ?_⟩
      rw [List.getElem?_map] at hp ⊢
      cases hq : (List.range (m.features_at_scale.getD i PointCloud.fresh).points.length)[p]? with
      | none => rw [hq] at hp; cases hp
      | some j =>
        rw [hq] at hp
        simp only [Option.map_some', Option.some.injEq] at hp ⊢
        exact isUnique_alpha_mono L hsqrt m a1 a2 h12 i j hp
  · intro s list2 hs
    rw [List.getElem?_map] at hs ⊢
    cases hr : (List.range m.scale_values_.length)[s]? with
    | none => rw [hr] at hs; cases hs
    | some i =>
      rw [hr] at hs
      simp only [Option.map_some', Option.some.injEq] at hs
      subst hs
      exact ⟨_, rfl, List.monotone_filter_right _
        (fun j hj => isUnique_alpha_mono L hsqrt m a1 a2 h12 i j hj)⟩

/-- The output indices of a run that passes `initCompute` and returns: the
front list filtered by the answer of the inner loop. -/
theorem determinePersistentFeatures_indices (L : LibM F)
    (m : MultiscaleFeaturePersistence F Hdr PointSource PointFeature)
    (est : FeatureEstimator F Hdr PointSource PointFeature)
    (output_features : PointCloud Hdr PointFeature) (output_indices : List Nat)
    (r : MultiscaleFeaturePersistence F Hdr PointSource PointFeature ×
      PointCloud Hdr PointFeature × List Nat)
    (hinit : (initCompute m).1 = true) (hest : m.feature_estimator_ = some est)
    (hrun : determinePersistentFeatures L m output_features output_indices = some r) :
    ∃ front, (stages L est (initCompute m).2).unique_features_indices.head? = some front ∧
      r.2.2 = output_indices ++ front.filter fun i =>
        presentInAll (stages L est (initCompute m).2).unique_features_table i
          (List.range (stages L est (initCompute m).2).features_at_scale.length) true ==
            some true := by
  rw [determinePersistentFeatures_unfold L m est output_features output_indices hinit hest]
    at hrun
  cases hfront : (stages L est (initCompute m).2).unique_features_indices.head? with
  | none => rw [hfront] at hrun; cases hrun
  | some front =>
    rw [hfront] at hrun
    change Option.map _ (persistentLoop _ _ front _) = _ at hrun
    cases hloop : persistentLoop (stages L est (initCompute m).2).unique_features_table
        (stages L est (initCompute m).2).features_at_scale front
        (output_features.points, output_indices) with
    | none => rw [hloop] at hrun; cases hrun
    | some res =>
      rw [hloop] at hrun
      simp only [Option.map_some', Option.some.injEq] at hrun
      subst hrun
      exact ⟨front, rfl, (persistentLoop_some _ _ _ _ _ hloop).1⟩

/-- C10: with a square root that is never negative and `alpha1 ≤ alpha2`, on
the same object otherwise, every true flag of a mask computed with `alpha2` is
a true flag of the mask of the same scale computed with `alpha1`; whenever
both runs return, the output indices for `alpha2` are a sublist of the output
indices for `alpha1`; and both runs do return when the estimator yields the
same number of points at every scale.  (`0 ≤ alpha1` is not needed.) -/
theorem determinePersistentFeatures_alpha_mono (L : LibM F) (hsqrt : ∀ x, 0 ≤ L.sqrt x)
    (m : MultiscaleFeaturePersistence F Hdr PointSource PointFeature)
    (est : FeatureEstimator F Hdr PointSource PointFeature) (alpha1 alpha2 : F)
    (output_features : PointCloud Hdr PointFeature) (output_indices : List Nat)
    (h12 : alpha1 ≤ alpha2)
    (hinit : (initCompute m).1 = true) (hest : m.feature_estimator_ = some est) :
    (∀ (s p : Nat) (mask2 : List Bool),
      (stages L est (initCompute { m with alpha_ := alpha2 }).2).unique_features_table[s]? =
        some mask2 →
      mask2[p]? = some true →
      ∃ mask1,
        (stages L est (initCompute { m with alpha_ := alpha1 }).2).unique_features_table[s]? =
          some mask1 ∧ mask1[p]? = some true) ∧
    (∀ r1 r2,
      determinePersistentFeatures L { m with alpha_ := alpha1 } output_features output_indices =
        some r1 →
      determinePersistentFeatures L { m with alpha_ := alpha2 } output_features output_indices =
        some r2 →
      r2.2.2.Sublist r1.2.2) ∧
    (∀ n0, (∀ s ∈ m.scale_values_, (est.compute s).points.length = n0) →
      (determinePersistentFeatures L { m with alpha_ := alpha1 } output_features
        output_indices).isSome = true ∧
      (determinePersistentFeatures L { m with alpha_ := alpha2 } output_features
        output_indices).isSome = true) := by
  have hlen : (calculateMeanFeature
      (computeFeaturesAtAllScales est (initCompute m).2)).features_at_scale_vectorized.length =
      (calculateMeanFeature
        (computeFeaturesAtAllScales est (initCompute m).2)).scale_values_.length := by
    rw [calculateMeanFeature_vectorized, calculateMeanFeature_scales,
      computeFeaturesAtAllScales_eq]
    simp
  obtain ⟨hmask, hlist⟩ := extractUniqueFeatures_alpha_mono L hsqrt
    (calculateMeanFeature (computeFeaturesAtAllScales est (initCompute m).2)) alpha1 alpha2 h12
    hlen
  have hi1 : (initCompute { m with alpha_ := alpha1 }).1 = true := by
    rw [(stages_alpha L est m alpha1).1]; exact hinit
  have hi2 : (initCompute { m with alpha_ := alpha2 }).1 = true := by
    rw [(stages_alpha L est m alpha2).1]; exact hinit
  have hflag : ∀ (s p : Nat) (mask2 : List Bool),
      (stages L est (initCompute { m with alpha_ := alpha2 }).2).unique_features_table[s]? =
        some mask2 →
      mask2[p]? = some true →
      ∃ mask1,
        (stages L est (initCompute { m with alpha_ := alpha1 }).2).unique_features_table[s]? =
          some mask1 ∧ mask1[p]? = some true := by
    rw [(stages_alpha L est m alpha1).2, (stages_alpha L est m alpha2).2]
    exact hmask
  refine ⟨hflag, ?_, ?_⟩
  · intro r1 r2 h1 h2
    obtain ⟨front1, hf1, hr1⟩ := determinePersistentFeatures_indices L _ est _ _ r1 hi1 hest h1
    obtain ⟨front2, hf2, hr2⟩ := determinePersistentFeatures_indices L _ est _ _ r2 hi2 hest h2
    have hn : (stages L est (initCompute { m with alpha_ := alpha2 }).2).features_at_scale.length
        = (stages L est (initCompute { m with alpha_ := alpha1 }).2).features_at_scale.length := by
      rw [(stages_length L est _).1, (stages_length L est _).1,
        (initCompute_true _ hi1).2.2.2, (initCompute_true _ hi2).2.2.2]
    have hsub : front2.Sublist front1 := by
      rw [List.head?_eq_getElem?, (stages_alpha L est m alpha2).2] at hf2
      rw [List.head?_eq_getElem?, (stages_alpha L est m alpha1).2] at hf1
      obtain ⟨l1, hl1, hl⟩ := hlist 0 front2 hf2
      rw [hf1] at hl1
      cases hl1
      exact hl
    rw [hr1, hr2, hn]
    refine List.Sublist.append (List.Sublist.refl _) ?_
    refine (hsub.filter _).trans (List.monotone_filter_right front1 ?_)
    intro i hq
    rw [beq_iff_eq] at hq ⊢
    rw [presentInAll_true_iff] at hq ⊢
    intro s hs
    obtain ⟨mask2, hm2, hp2⟩ := hq s hs
    exact hflag s i mask2 hm2 hp2
  · intro n0 hpts
    obtain ⟨_, _, _, -, -, -, -, -, -, hrun1⟩ :=
      determinePersistentFeatures_eq L { m with alpha_ := alpha1 } est output_features
        output_indices n0 hi1 hest hpts
    obtain ⟨_, _, _, -, -, -, -, -, -, hrun2⟩ :=
      determinePersistentFeatures_eq L { m with alpha_ := alpha2 } est output_features
        output_indices n0 hi2 hest hpts
    rw [hrun1, hrun2]
    exact ⟨rfl, rfl⟩

/-- Witness for C10 on the two-scale configuration with the multipliers 1
and 2. -/
theorem determinePersistentFeatures_alpha_mono_witness :
    (∀ r1 r2,
      determinePersistentFeatures libQ { twoScales with alpha_ := 1 } emptyOutput [] =
        some r1 →
      determinePersistentFeatures libQ { twoScales with alpha_ := 2 } emptyOutput [] =
        some r2 →
      r2.2.2.Sublist r1.2.2) ∧
    (determinePersistentFeatures libQ { twoScales with alpha_ := 1 } emptyOutput []).isSome =
      true ∧
    (determinePersistentFeatures libQ { twoScales with alpha_ := 2 } emptyOutput []).isSome =
      true := by
  have hsqrt : ∀ x, 0 ≤ libQ.sqrt x := by
    intro x
    exact div_nonneg (Nat.cast_nonneg _) (Nat.cast_nonneg _)
  obtain ⟨-, h2, h3⟩ := determinePersistentFeatures_alpha_mono libQ hsqrt twoScales
    (estimatorOf [11, 17] [9, 3] []) 1 2 emptyOutput [] (by norm_num) rfl rfl
  exact ⟨h2, h3 2 (by
    intro s hs
    simp only [twoScales, configOf, List.mem_cons, List.mem_singleton, List.not_mem_nil,
      or_false] at hs
    rcases hs with rfl | rfl <;> simp [estimatorOf, cloudOf])⟩

end Exact

end pcl

/-! ## The metrics -/

namespace pcl

section Metrics

variable {F : Type} [LinearOrderedField F]

/-- C13: for vectors of equal length the distance does not depend on the
order of its arguments in Manhattan mode and in Euclidean mode (`fabs` being
the absolute value). -/
theorem distanceBetweenFeatures_symm (L : LibM F) (hfabs : ∀ x, L.fabs x = |x|)
    (a b : List F) (hlen : a.length = b.length) :
    distanceBetweenFeatures L .MANHATTAN a b = distanceBetweenFeatures L .MANHATTAN b a ∧
    distanceBetweenFeatures L .EUCLIDEAN a b = distanceBetweenFeatures L .EUCLIDEAN b a := by
  constructor
  · simp only [distanceBetweenFeatures]
    rw [hlen]
    congr 1
    funext dist i
    rw [hfabs, hfabs, abs_sub_comm]
  · simp only [distanceBetweenFeatures]
    rw [hlen]
    congr 2
    funext dist i
    ring

/-- Witness for C13 with two vectors of two components. -/
theorem distanceBetweenFeatures_symm_witness :
    distanceBetweenFeatures libQ .MANHATTAN [1, 2] [4, 6] =
      distanceBetweenFeatures libQ .MANHATTAN [4, 6] [1, 2] ∧
    distanceBetweenFeatures libQ .EUCLIDEAN [1, 2] [4, 6] =
      distanceBetweenFeatures libQ .EUCLIDEAN [4, 6] [1, 2] :=
  distanceBetweenFeatures_symm libQ (fun _ => rfl) [1, 2] [4, 6] rfl

end Metrics

end pcl

/-! ## Masks and lists of one scale -/

namespace pcl

section Masks

variable {F Hdr PointSource PointFeature : Type}
variable [Zero F] [Add F] [Sub F] [Mul F] [Div F] [Neg F] [NatCast F]
variable [LT F] [DecidableRel (fun a b : F => a < b)]
variable [Inhabited Hdr]

/-- The mask and the list that `extractUniqueFeatures` leaves for scale `s`:
the table of the test over the points of the scale's cloud, and the indices
that pass it, in index order. -/
theorem extractUniqueFeatures_scale (L : LibM F)
    (m : MultiscaleFeaturePersistence F Hdr PointSource PointFeature) (s : Nat)
    (hlen : m.features_at_scale_vectorized.length = m.scale_values_.length)
    (hs : s < m.scale_values_.length) :
    (extractUniqueFeatures L m).unique_features_table[s]? =
      some ((List.range (m.features_at_scale.getD s PointCloud.fresh).points.length).map
        (isUnique L m s)) ∧
    (extractUniqueFeatures L m).unique_features_indices[s]? =
      some ((List.range (m.features_at_scale.getD s PointCloud.fresh).points.length).filter
        (isUnique L m s)) := by
  rw [extractUniqueFeatures_eq L m hlen]
  simp only
  rw [List.getElem?_map, List.getElem?_map, List.getElem?_range hs]
  constructor <;> simp only [Option.map_some', uniqueAtScale_eq]

/-- C18: after `extractUniqueFeatures`, for every scale `s` the mask has as
many entries as the scale's cloud has points, the flagged-index list is
strictly ascending, and an index occurs in the list exactly when it is below
the point count and its mask entry is true. -/
theorem extractUniqueFeatures_mask_list (L : LibM F)
    (m : MultiscaleFeaturePersistence F Hdr PointSource PointFeature) (s : Nat)
    (hlen : m.features_at_scale_vectorized.length = m.scale_values_.length)
    (hs : s < m.scale_values_.length) :
    ∃ mask flagged,
      (extractUniqueFeatures L m).unique_features_table[s]? = some mask ∧
      (extractUniqueFeatures L m).unique_features_indices[s]? = some flagged ∧
      mask.length = (m.features_at_scale.getD s PointCloud.fresh).points.length ∧
      flagged.Pairwise (fun i j => i < j) ∧
      ∀ i, i ∈ flagged ↔
        i < (m.features_at_scale.getD s PointCloud.fresh).points.length ∧
          mask[i]? = some true := by
  obtain ⟨hT, hI⟩ := extractUniqueFeatures_scale L m s hlen hs
  refine ⟨_, _, hT, hI, by simp, ?_, ?_⟩
  · exact List.Pairwise.sublist (List.filter_sublist _) (List.pairwise_lt_range _)
  · intro i
    rw [List.mem_filter, List.mem_range, List.getElem?_map]
    constructor
    · rintro ⟨hi, hf⟩
      refine ⟨hi, ?_⟩
      rw [List.getElem?_range hi, Option.map_some', hf]
    · rintro ⟨hi, hf⟩
      refine ⟨hi, ?_⟩
      rw [List.getElem?_range hi, Option.map_some'] at hf
      exact Option.some.inj hf

/-- Witness for C18 on scale 1 of the two-scale configuration. -/
theorem extractUniqueFeatures_mask_list_witness :
    ∃ mask flagged,
      (extractUniqueFeatures libQ twoScalesMean).unique_features_table[1]? = some mask ∧
      (extractUniqueFeatures libQ twoScalesMean).unique_features_indices[1]? = some flagged ∧
      mask.length = (twoScalesMean.features_at_scale.getD 1 PointCloud.fresh).points.length ∧
      flagged.Pairwise (fun i j => i < j) ∧
      ∀ i, i ∈ flagged ↔
        i < (twoScalesMean.features_at_scale.getD 1 PointCloud.fresh).points.length ∧
          mask[i]? = some true :=
  extractUniqueFeatures_mask_list libQ twoScalesMean 1
    (by rw [twoScalesMean_eq.2.1, twoScalesMean_eq.2.2.2.1]; rfl)
    (by rw [twoScalesMean_eq.2.2.2.1]; decide)

end Masks

end pcl

/-! ## Thresholds in exact arithmetic -/

namespace pcl

section Thresholds

variable {F Hdr PointSource PointFeature : Type} [LinearOrderedField F] [Inhabited Hdr]

end Thresholds

end pcl

/-! ## Independence of earlier runs -/

namespace pcl

section Fresh

variable {F Hdr PointSource PointFeature : Type}
variable [Zero F] [Add F] [Sub F] [Mul F] [Div F] [Neg F] [NatCast F]
variable [LT F] [DecidableRel (fun a b : F => a < b)]
variable [Inhabited Hdr]

/-- Two objects with the same members are the same object. -/
theorem mfp_ext (x y : MultiscaleFeaturePersistence F Hdr PointSource PointFeature)
    (h1 : x.base_initCompute = y.base_initCompute)
    (h2 : x.distance_metric_ = y.distance_metric_)
    (h3 : x.feature_estimator_ = y.feature_estimator_)
    (h4 : x.feature_representation_ = y.feature_representation_)
    (h5 : x.scale_values_ = y.scale_values_)
    (h6 : x.alpha_ = y.alpha_)
    (h7 : x.mean_feature = y.mean_feature)
    (h8 : x.features_at_scale = y.features_at_scale)
    (h9 : x.features_at_scale_vectorized = y.features_at_scale_vectorized)
    (h10 : x.unique_features_indices = y.unique_features_indices)
    (h11 : x.unique_features_table = y.unique_features_table) : x = y := by
  cases x
  cases y
  simp only at h1 h2 h3 h4 h5 h6 h7 h8 h9 h10 h11
  subst h1 h2 h3 h4 h5 h6 h7 h8 h9 h10 h11
  rfl

/-- The test of a point reads the vectors, the mean, the metric and the
multiplier only. -/
theorem isUnique_congr (L : LibM F)
    (x y : MultiscaleFeaturePersistence F Hdr PointSource PointFeature)
    (h2 : x.distance_metric_ = y.distance_metric_) (h6 : x.alpha_ = y.alpha_)
    (h7 : x.mean_feature = y.mean_feature)
    (h9 : x.features_at_scale_vectorized = y.features_at_scale_vectorized) (s p : Nat) :
    isUnique L x s p = isUnique L y s p := by
  unfold isUnique
  simp only [h2, h6, h7, h9]

/-- The members after the stages are determined by the configuration: two
objects that agree on it, whatever their working members hold, reach the same
state, provided `mean_feature` has the declared dimension in both (which
`initCompute` establishes). -/
theorem stages_congr (L : LibM F) (est : FeatureEstimator F Hdr PointSource PointFeature)
    (x y : MultiscaleFeaturePersistence F Hdr PointSource PointFeature)
    (h1 : x.base_initCompute = y.base_initCompute)
    (h2 : x.distance_metric_ = y.distance_metric_)
    (h3 : x.feature_estimator_ = y.feature_estimator_)
    (h4 : x.feature_representation_ = y.feature_representation_)
    (h5 : x.scale_values_ = y.scale_values_)
    (h6 : x.alpha_ = y.alpha_)
    (hx : x.mean_feature.length = x.feature_representation_.getNumberOfDimensions)
    (hy : y.mean_feature.length = y.feature_representation_.getNumberOfDimensions) :
    stages L est x = stages L est y := by
  have hfas : (calculateMeanFeature (computeFeaturesAtAllScales est x)).features_at_scale =
      (calculateMeanFeature (computeFeaturesAtAllScales est y)).features_at_scale := by
    rw [calculateMeanFeature_features, calculateMeanFeature_features,
      computeFeaturesAtAllScales_eq, computeFeaturesAtAllScales_eq]
    simp only [h5]
  have hvec :
      (calculateMeanFeature (computeFeaturesAtAllScales est x)).features_at_scale_vectorized =
      (calculateMeanFeature (computeFeaturesAtAllScales est y)).features_at_scale_vectorized := by
    rw [calculateMeanFeature_vectorized, calculateMeanFeature_vectorized,
      computeFeaturesAtAllScales_eq, computeFeaturesAtAllScales_eq]
    simp only [h4, h5]
  have hmean : (calculateMeanFeature (computeFeaturesAtAllScales est x)).mean_feature =
      (calculateMeanFeature (computeFeaturesAtAllScales est y)).mean_feature := by
    rw [calculateMeanFeature_eq _ (by rw [computeFeaturesAtAllScales_eq]; exact hx),
      calculateMeanFeature_eq _ (by rw [computeFeaturesAtAllScales_eq]; exact hy)]
    rw [computeFeaturesAtAllScales_eq, computeFeaturesAtAllScales_eq]
    simp only [h4, h5]
  have hmet : (calculateMeanFeature (computeFeaturesAtAllScales est x)).distance_metric_ =
      (calculateMeanFeature (computeFeaturesAtAllScales est y)).distance_metric_ := by
    rw [calculateMeanFeature_metric, calculateMeanFeature_metric,
      computeFeaturesAtAllScales_eq, computeFeaturesAtAllScales_eq]
    exact h2
  have halp : (calculateMeanFeature (computeFeaturesAtAllScales est x)).alpha_ =
      (calculateMeanFeature (computeFeaturesAtAllScales est y)).alpha_ := by
    rw [calculateMeanFeature_alpha, calculateMeanFeature_alpha,
      computeFeaturesAtAllScales_eq, computeFeaturesAtAllScales_eq]
    exact h6
  have hflag : ∀ s p,
      isUnique L (calculateMeanFeature (computeFeaturesAtAllScales est x)) s p =
      isUnique L (calculateMeanFeature (computeFeaturesAtAllScales est y)) s p :=
    fun s p => isUnique_congr L _ _ hmet halp hmean hvec s p
  rw [stages_eq, stages_eq]
  apply mfp_ext
  · show (computeFeaturesAtAllScales est x).base_initCompute =
      (computeFeaturesAtAllScales est y).base_initCompute
    rw [computeFeaturesAtAllScales_eq, computeFeaturesAtAllScales_eq]; exact h1
  · exact hmet
  · show (computeFeaturesAtAllScales est x).feature_estimator_ =
      (computeFeaturesAtAllScales est y).feature_estimator_
    rw [computeFeaturesAtAllScales_eq, computeFeaturesAtAllScales_eq]; exact h3
  · show (computeFeaturesAtAllScales est x).feature_representation_ =
      (computeFeaturesAtAllScales est y).feature_representation_
    rw [computeFeaturesAtAllScales_eq, computeFeaturesAtAllScales_eq]; exact h4
  · show (computeFeaturesAtAllScales est x).scale_values_ =
      (computeFeaturesAtAllScales est y).scale_values_
    rw [computeFeaturesAtAllScales_eq, computeFeaturesAtAllScales_eq]; exact h5
  · exact halp
  · exact hmean
  · exact hfas
  · exact hvec
  · simp only [h5, hflag]
  · simp only [h5, hflag]

/-- A failing `initCompute` ends the run at once. -/
theorem determinePersistentFeatures_init_false (L : LibM F)
    (m : MultiscaleFeaturePersistence F Hdr PointSource PointFeature)
    (output_features : PointCloud Hdr PointFeature) (output_indices : List Nat)
    (h : (initCompute m).1 = false) :
    determinePersistentFeatures L m output_features output_indices =
      some (m, output_features, output_indices) := by
  have h2 : (initCompute m).2 = m := by
    unfold initCompute at h ⊢
    split_ifs at h ⊢ <;> rfl
  have hpair : initCompute m = (false, m) := Prod.ext h h2
  unfold determinePersistentFeatures
  rw [hpair]

/-- The outcome of `initCompute` is read off the configuration. -/
theorem initCompute_congr (x y : MultiscaleFeaturePersistence F Hdr PointSource PointFeature)
    (h1 : x.base_initCompute = y.base_initCompute)
    (h3 : x.feature_estimator_ = y.feature_estimator_)
    (h5 : x.scale_values_ = y.scale_values_) :
    (initCompute x).1 = (initCompute y).1 := by
  unfold initCompute
  rw [h1, h3, h5]
  split_ifs <;> rfl

/-- C17: two objects with the same configuration (base check, metric,
estimator, representation, scale values, alpha) and any working members
(`mean_feature`, `features_at_scale`, `features_at_scale_vectorized`,
`unique_features_indices`, `unique_features_table`) give, on the same output
arguments, the same output cloud (points and metadata) and the same output
indices; when `initCompute` succeeds they also end in the same state. -/
theorem determinePersistentFeatures_fresh (L : LibM F)
    (x y : MultiscaleFeaturePersistence F Hdr PointSource PointFeature)
    (output_features : PointCloud Hdr PointFeature) (output_indices : List Nat)
    (h1 : x.base_initCompute = y.base_initCompute)
    (h2 : x.distance_metric_ = y.distance_metric_)
    (h3 : x.feature_estimator_ = y.feature_estimator_)
    (h4 : x.feature_representation_ = y.feature_representation_)
    (h5 : x.scale_values_ = y.scale_values_)
    (h6 : x.alpha_ = y.alpha_) :
    (determinePersistentFeatures L x output_features output_indices).map
        (fun r => (r.2.1, r.2.2)) =
      (determinePersistentFeatures L y output_features output_indices).map
        (fun r => (r.2.1, r.2.2)) ∧
    ((initCompute x).1 = true →
      determinePersistentFeatures L x output_features output_indices =
        determinePersistentFeatures L y output_features output_indices) := by
  have hsame : (initCompute x).1 = true →
      determinePersistentFeatures L x output_features output_indices =
        determinePersistentFeatures L y output_features output_indices := by
    intro hx
    have hy : (initCompute y).1 = true := by rw [← initCompute_congr x y h1 h3 h5]; exact hx
    obtain ⟨-, hsome, -, hx2⟩ := initCompute_true x hx
    obtain ⟨-, -, -, hy2⟩ := initCompute_true y hy
    obtain ⟨est, hest⟩ := Option.isSome_iff_exists.mp hsome
    have hst : stages L est (initCompute x).2 = stages L est (initCompute y).2 := by
      rw [hx2, hy2]
      exact stages_congr L est _ _ h1 h2 h3 h4 h5 h6 (length_resize _ _ _) (length_resize _ _ _)
    rw [determinePersistentFeatures_unfold L x est _ _ hx hest,
      determinePersistentFeatures_unfold L y est _ _ hy (by rw [← h3]; exact hest), hst]
  refine ⟨?_, hsame⟩
  cases hx : (initCompute x).1 with
  | true => rw [hsame hx]
  | false =>
    have hy : (initCompute y).1 = false := by rw [← initCompute_congr x y h1 h3 h5]; exact hx
    rw [determinePersistentFeatures_init_false L x _ _ hx,
      determinePersistentFeatures_init_false L y _ _ hy]
    rfl

/-- Witness for C17: the two-scale configuration, fresh and with working
members left over from another run. -/
theorem determinePersistentFeatures_fresh_witness :
    (determinePersistentFeatures libQ twoScales emptyOutput []).map
        (fun r => (r.2.1, r.2.2)) =
      (determinePersistentFeatures libQ
        { twoScales with
          mean_feature := [3, 4, 5]
          features_at_scale := [cloudOf [1]]
          features_at_scale_vectorized := [[[1]], [[2]], [[3]]]
          unique_features_indices := [[0, 1, 2]]
          unique_features_table := [[true, true, true]] } emptyOutput []).map
        (fun r => (r.2.1, r.2.2)) :=
  (determinePersistentFeatures_fresh libQ twoScales
    { twoScales with
      mean_feature := [3, 4, 5]
      features_at_scale := [cloudOf [1]]
      features_at_scale_vectorized := [[[1]], [[2]], [[3]]]
      unique_features_indices := [[0, 1, 2]]
      unique_features_table := [[true, true, true]] } emptyOutput [] rfl rfl rfl rfl rfl rfl).1

end Fresh

end pcl

/-! ## The order of the scales -/

namespace pcl

section Order

variable {F Hdr PointSource PointFeature : Type}
variable [Zero F] [Add F] [Sub F] [Mul F] [Div F] [Neg F] [NatCast F]
variable [LT F] [DecidableRel (fun a b : F => a < b)]
variable [Inhabited Hdr]

end Order

end pcl

namespace pcl

section OrderExact

variable {F Hdr PointSource PointFeature : Type} [LinearOrderedField F] [Inhabited Hdr]

end OrderExact

end pcl
